import Mathlib

set_option maxRecDepth 100000

/-!
Verification of the `arcbox-labs/distro` rootfs resolution and caching
engine against its specification.

The Rust sources are embedded shallowly:

* Pure string manipulation (template substitution, checksum-file parsing,
  product-key construction) becomes pure Lean functions on `String` /
  `List Char`.
* Machine integers (`u64`, the 32/64-bit words inside the digests) become
  `Nat` with explicit `% 2^w` reductions.
* The SHA-256 / SHA-512 digests (external `sha2` crate) are implemented
  concretely (FIPS 180-4) over byte lists so that cache integrity behaviour
  is fully executable.
* Filesystem state (a cache entry directory) becomes an explicit value: a
  list of named files; fallible operations return `Except`.
* Nondeterministic removal failures (`remove_dir_all` during pruning) are
  modelled by a caller-supplied success predicate.

Strings are compared the way Rust compares them: lexicographically on the
UTF-8 byte sequence, which coincides with lexicographic comparison of the
scalar-value sequence; `lexLt` below implements exactly that order.
-/

/-! ## String and character helpers -/

/-- Lexicographic strict order on character lists by code point. This is the
order Rust's `Ord for str`/`String` induces (UTF-8 byte order equals scalar
value order). -/
def lexLt : List Char → List Char → Bool
  | [], [] => false
  | [], _ :: _ => true
  | _ :: _, [] => false
  | a :: as, b :: bs =>
    if a.toNat < b.toNat then true
    else if b.toNat < a.toNat then false
    else lexLt as bs

/-- Rust `String` strict comparison (`a < b`). -/
def strLt (a b : String) : Bool := lexLt a.data b.data

/-- Rust `String` non-strict comparison (`a <= b`). -/
def strLe (a b : String) : Bool := !strLt b a

/-- ASCII whitespace recognizer: the characters Rust's `char::is_whitespace`
accepts within the ASCII range. (The full Unicode whitespace set also holds
a few code points above 0x7F; no input in this development contains them.) -/
def isWsp (c : Char) : Bool :=
  c = ' ' || c = '\t' || c = '\n' || c = '\r' || c.toNat = 11 || c.toNat = 12

/-- Split a character list at the first character satisfying `p`, dropping
that character — the behaviour of Rust's `str::split_once`. -/
def splitOnceP (p : Char → Bool) : List Char → Option (List Char × List Char)
  | [] => none
  | c :: cs =>
    if p c then some ([], cs)
    else match splitOnceP p cs with
      | some (a, b) => some (c :: a, b)
      | none => none

/-- ASCII lowercasing of one character (Rust `to_lowercase` restricted to
ASCII; all hashes handled here are ASCII hex). -/
def lowerChar (c : Char) : Char :=
  if 'A' ≤ c && c ≤ 'Z' then Char.ofNat (c.toNat + 32) else c

/-- ASCII lowercasing of a character list. -/
def lowerAscii (cs : List Char) : List Char := cs.map lowerChar

/-- Split a character list at every `'\n'` (the pieces between newlines;
one more piece than newlines). -/
def linesSplit : List Char → List (List Char)
  | [] => [[]]
  | c :: cs =>
    if c = '\n' then [] :: linesSplit cs
    else match linesSplit cs with
      | l :: ls => (c :: l) :: ls
      | [] => [[c]]

/-- Strip one trailing `'\r'` (the carriage return of a `"\r\n"` ending). -/
def stripTrailingCR (l : List Char) : List Char :=
  if l.getLast? = some '\r' then l.dropLast else l

/-- Rust `str::lines` on the split pieces: every piece but the last was
terminated by `'\n'` and loses a trailing `'\r'`; the unterminated last
piece is kept verbatim unless empty. -/
def rustLinesChars : List (List Char) → List (List Char)
  | [] => []
  | [l] => if l = [] then [] else [l]
  | l :: rest => stripTrailingCR l :: rustLinesChars rest

/-- Rust `str::lines` as a list of strings. -/
def rustLines (s : String) : List String :=
  (rustLinesChars (linesSplit s.data)).map String.mk

/-- Rust `str::starts_with` on strings (byte prefix equals character-list
prefix for UTF-8). -/
def strStartsWith (s pre : String) : Bool :=
  decide (s.data.take pre.data.length = pre.data)

/-- Matches a (reversed) pattern against the front of a (reversed) string:
the worker of the suffix check. -/
def revPrefixEq : List Char → List Char → Bool
  | [], _ => true
  | _ :: _, [] => false
  | p :: ps, c :: cs => if c = p then revPrefixEq ps cs else false

/-- Rust `str::ends_with` on strings (byte suffix equals character-list
suffix for the ASCII suffixes used here). -/
def strEndsWith (s suffix : String) : Bool :=
  revPrefixEq suffix.data.reverse s.data.reverse

/-- First whitespace-separated token of a line (Rust
`split_whitespace().next()`). -/
def firstToken (cs : List Char) : Option (List Char) :=
  let t := (cs.dropWhile isWsp).takeWhile (fun c => !isWsp c)
  if t.isEmpty then none else some t

/-- Rust `str::trim`: whitespace removed from both ends. -/
def trimChars (cs : List Char) : List Char :=
  ((cs.dropWhile isWsp).reverse.dropWhile isWsp).reverse

/-- The substring after the last `'/'` (Rust `path.rsplit('/').next()`;
always succeeds, returning the whole string when no `'/'` occurs). -/
def lastSegment (p : String) : String :=
  String.mk (p.data.reverse.takeWhile (fun c => c ≠ '/')).reverse

/-- One hexadecimal digit, lowercase. -/
def hexDigit (n : Nat) : Char := if n < 10 then Char.ofNat (48 + n) else Char.ofNat (87 + n)

/-- Fixed-width lowercase hexadecimal rendering (`k` digits, big-endian). -/
def toHexNat : Nat → Nat → List Char
  | 0, _ => []
  | k + 1, v => toHexNat k (v / 16) ++ [hexDigit (v % 16)]

/-- Big-endian byte rendering of `v` in exactly `k` bytes. -/
def lenBytes : Nat → Nat → List Nat
  | 0, _ => []
  | k + 1, v => lenBytes k (v / 256) ++ [v % 256]

/-- UTF-8 encoding of one scalar value. -/
def utf8Bytes (c : Char) : List Nat :=
  let n := c.toNat
  if n < 128 then [n]
  else if n < 2048 then [192 + n / 64, 128 + n % 64]
  else if n < 65536 then [224 + n / 4096, 128 + (n / 64) % 64, 128 + n % 64]
  else [240 + n / 262144, 128 + (n / 4096) % 64, 128 + (n / 64) % 64, 128 + n % 64]

/-- UTF-8 encoding of a character list. -/
def strBytes (cs : List Char) : List Nat := (cs.map utf8Bytes).flatten

/-! ## SHA-256 (FIPS 180-4), bytes in, lowercase hex out -/

/-- Modulus of 32-bit words. -/
def M32 : Nat := 4294967296

/-- 32-bit rotate right. -/
def rotr32 (n x : Nat) : Nat := ((x >>> n) ||| (x <<< (32 - n))) % M32

/-- SHA-256 Σ₀. -/
def bsig0 (x : Nat) : Nat := rotr32 2 x ^^^ rotr32 13 x ^^^ rotr32 22 x

/-- SHA-256 Σ₁. -/
def bsig1 (x : Nat) : Nat := rotr32 6 x ^^^ rotr32 11 x ^^^ rotr32 25 x

/-- SHA-256 σ₀. -/
def ssig0 (x : Nat) : Nat := rotr32 7 x ^^^ rotr32 18 x ^^^ (x >>> 3)

/-- SHA-256 σ₁. -/
def ssig1 (x : Nat) : Nat := rotr32 17 x ^^^ rotr32 19 x ^^^ (x >>> 10)

/-- SHA choice function, on `w`-bit words via mask `m = 2^w - 1`. -/
def chF (m e f g : Nat) : Nat := (e &&& f) ^^^ ((e ^^^ m) &&& g)

/-- SHA majority function. -/
def majF (a b c : Nat) : Nat := (a &&& b) ^^^ (a &&& c) ^^^ (b &&& c)

/-- SHA-256 round constants (the 64 FIPS 180-4 values, written in decimal). -/
def K256 : List Nat := [
  1116352408, 1899447441, 3049323471, 3921009573, 961987163,
  1508970993, 2453635748, 2870763221, 3624381080, 310598401,
  607225278, 1426881987, 1925078388, 2162078206, 2614888103,
  3248222580, 3835390401, 4022224774, 264347078, 604807628,
  770255983, 1249150122, 1555081692, 1996064986, 2554220882,
  2821834349, 2952996808, 3210313671, 3336571891, 3584528711,
  113926993, 338241895, 666307205, 773529912, 1294757372,
  1396182291, 1695183700, 1986661051, 2177026350, 2456956037,
  2730485921, 2820302411, 3259730800, 3345764771, 3516065817,
  3600352804, 4094571909, 275423344, 430227734, 506948616,
  659060556, 883997877, 958139571, 1322822218, 1537002063,
  1747873779, 1955562222, 2024104815, 2227730452, 2361852424,
  2428436474, 2756734187, 3204031479, 3329325298]

/-- Working state of the SHA compression function: eight words. -/
structure Hash8 where
  a : Nat
  b : Nat
  c : Nat
  d : Nat
  e : Nat
  f : Nat
  g : Nat
  h : Nat
deriving DecidableEq

/-- One SHA-256 round; `kw` pairs the round constant with the schedule word. -/
def compressStep (s : Hash8) (kw : Nat × Nat) : Hash8 :=
  let t1 := (s.h + bsig1 s.e + chF (M32 - 1) s.e s.f s.g + kw.1 + kw.2) % M32
  let t2 := (bsig0 s.a + majF s.a s.b s.c) % M32
  ⟨(t1 + t2) % M32, s.a, s.b, s.c, (s.d + t1) % M32, s.e, s.f, s.g⟩

/-- Next SHA-256 message-schedule word; `w` is the schedule so far, most
recent word first. -/
def schedNext (w : List Nat) : Nat :=
  (ssig1 (w.getD 1 0) + w.getD 6 0 + ssig0 (w.getD 14 0) + w.getD 15 0) % M32

/-- Extend the (reversed) SHA-256 message schedule by `n` words. -/
def extendSched : Nat → List Nat → List Nat
  | 0, w => w
  | n + 1, w => extendSched n (schedNext w :: w)

/-- Big-endian 32-bit words from bytes. -/
def bytesToWords32 : List Nat → List Nat
  | b0 :: b1 :: b2 :: b3 :: rest => (((b0 * 256 + b1) * 256 + b2) * 256 + b3) :: bytesToWords32 rest
  | _ => []

/-- SHA-256 compression of one 16-word block. -/
def compressBlock (h0 : Hash8) (block : List Nat) : Hash8 :=
  let ws := (extendSched 48 block.reverse).reverse
  let s := (K256.zip ws).foldl compressStep h0
  ⟨(h0.a + s.a) % M32, (h0.b + s.b) % M32, (h0.c + s.c) % M32, (h0.d + s.d) % M32,
   (h0.e + s.e) % M32, (h0.f + s.f) % M32, (h0.g + s.g) % M32, (h0.h + s.h) % M32⟩

/-- Merkle–Damgård padding to 64-byte blocks with a 64-bit length field. -/
def sha256pad (msg : List Nat) : List Nat :=
  let L := msg.length
  let z := (64 - ((L + 9) % 64)) % 64
  msg ++ [128] ++ List.replicate z 0 ++ lenBytes 8 (8 * L)

/-- Split into `sz`-byte blocks (fuelled; the fuel is the byte count, always
sufficient). -/
def chunkBlocks (sz : Nat) : Nat → List Nat → List (List Nat)
  | 0, _ => []
  | _ + 1, [] => []
  | fuel + 1, l => l.take sz :: chunkBlocks sz fuel (l.drop sz)

/-- SHA-256 initial hash values (FIPS 180-4, in decimal). -/
def H256init : Hash8 :=
  ⟨1779033703, 3144134277, 1013904242, 2773480762, 1359893119, 2600822924, 528734635, 1541459225⟩

/-- SHA-256 digest of a byte list, rendered as lowercase hex — the value
`hex::encode(Sha256::digest(data))` computes in the sources. -/
def sha256hex (msg : List Nat) : String :=
  let padded := sha256pad msg
  let hf := (chunkBlocks 64 padded.length padded).foldl
    (fun h b => compressBlock h (bytesToWords32 b)) H256init
  String.mk (([hf.a, hf.b, hf.c, hf.d, hf.e, hf.f, hf.g, hf.h].map (toHexNat 8)).flatten)

/-! ## SHA-512 (FIPS 180-4) -/

/-- Modulus of 64-bit words. -/
def M64 : Nat := 18446744073709551616

/-- 64-bit rotate right. -/
def rotr64 (n x : Nat) : Nat := ((x >>> n) ||| (x <<< (64 - n))) % M64

/-- SHA-512 Σ₀. -/
def bsig0w (x : Nat) : Nat := rotr64 28 x ^^^ rotr64 34 x ^^^ rotr64 39 x

/-- SHA-512 Σ₁. -/
def bsig1w (x : Nat) : Nat := rotr64 14 x ^^^ rotr64 18 x ^^^ rotr64 41 x

/-- SHA-512 σ₀. -/
def ssig0w (x : Nat) : Nat := rotr64 1 x ^^^ rotr64 8 x ^^^ (x >>> 7)

/-- SHA-512 σ₁. -/
def ssig1w (x : Nat) : Nat := rotr64 19 x ^^^ rotr64 61 x ^^^ (x >>> 6)

/-- SHA-512 round constants (the 80 FIPS 180-4 values, written in decimal). -/
def K512 : List Nat := [
  4794697086780616226, 8158064640168781261, 13096744586834688815,
  16840607885511220156, 4131703408338449720, 6480981068601479193,
  10538285296894168987, 12329834152419229976, 15566598209576043074,
  1334009975649890238, 2608012711638119052, 6128411473006802146,
  8268148722764581231, 9286055187155687089, 11230858885718282805,
  13951009754708518548, 16472876342353939154, 17275323862435702243,
  1135362057144423861, 2597628984639134821, 3308224258029322869,
  5365058923640841347, 6679025012923562964, 8573033837759648693,
  10970295158949994411, 12119686244451234320, 12683024718118986047,
  13788192230050041572, 14330467153632333762, 15395433587784984357,
  489312712824947311, 1452737877330783856, 2861767655752347644,
  3322285676063803686, 5560940570517711597, 5996557281743188959,
  7280758554555802590, 8532644243296465576, 9350256976987008742,
  10552545826968843579, 11727347734174303076, 12113106623233404929,
  14000437183269869457, 14369950271660146224, 15101387698204529176,
  15463397548674623760, 17586052441742319658, 1182934255886127544,
  1847814050463011016, 2177327727835720531, 2830643537854262169,
  3796741975233480872, 4115178125766777443, 5681478168544905931,
  6601373596472566643, 7507060721942968483, 8399075790359081724,
  8693463985226723168, 9568029438360202098, 10144078919501101548,
  10430055236837252648, 11840083180663258601, 13761210420658862357,
  14299343276471374635, 14566680578165727644, 15097957966210449927,
  16922976911328602910, 17689382322260857208, 500013540394364858,
  748580250866718886, 1242879168328830382, 1977374033974150939,
  2944078676154940804, 3659926193048069267, 4368137639120453308,
  4836135668995329356, 5532061633213252278, 6448918945643986474,
  6902733635092675308, 7801388544844847127]

/-- One SHA-512 round. -/
def compressStep512 (s : Hash8) (kw : Nat × Nat) : Hash8 :=
  let t1 := (s.h + bsig1w s.e + chF (M64 - 1) s.e s.f s.g + kw.1 + kw.2) % M64
  let t2 := (bsig0w s.a + majF s.a s.b s.c) % M64
  ⟨(t1 + t2) % M64, s.a, s.b, s.c, (s.d + t1) % M64, s.e, s.f, s.g⟩

/-- Next SHA-512 message-schedule word (schedule reversed, most recent
first). -/
def schedNext512 (w : List Nat) : Nat :=
  (ssig1w (w.getD 1 0) + w.getD 6 0 + ssig0w (w.getD 14 0) + w.getD 15 0) % M64

/-- Extend the (reversed) SHA-512 message schedule by `n` words. -/
def extendSched512 : Nat → List Nat → List Nat
  | 0, w => w
  | n + 1, w => extendSched512 n (schedNext512 w :: w)

/-- Big-endian 64-bit words from bytes. -/
def bytesToWords64 : List Nat → List Nat
  | b0 :: b1 :: b2 :: b3 :: b4 :: b5 :: b6 :: b7 :: rest =>
    (((((((b0 * 256 + b1) * 256 + b2) * 256 + b3) * 256 + b4) * 256 + b5) * 256 + b6) * 256 + b7)
      :: bytesToWords64 rest
  | _ => []

/-- SHA-512 compression of one 16-word block. -/
def compressBlock512 (h0 : Hash8) (block : List Nat) : Hash8 :=
  let ws := (extendSched512 64 block.reverse).reverse
  let s := (K512.zip ws).foldl compressStep512 h0
  ⟨(h0.a + s.a) % M64, (h0.b + s.b) % M64, (h0.c + s.c) % M64, (h0.d + s.d) % M64,
   (h0.e + s.e) % M64, (h0.f + s.f) % M64, (h0.g + s.g) % M64, (h0.h + s.h) % M64⟩

/-- Padding to 128-byte blocks with a 128-bit length field. -/
def sha512pad (msg : List Nat) : List Nat :=
  let L := msg.length
  let z := (128 - ((L + 17) % 128)) % 128
  msg ++ [128] ++ List.replicate z 0 ++ lenBytes 16 (8 * L)

/-- SHA-512 initial hash values (FIPS 180-4, in decimal). -/
def H512init : Hash8 :=
  ⟨7640891576956012808, 13503953896175478587, 4354685564936845355, 11912009170470909681,
   5840696475078001361, 11170449401992604703, 2270897969802886507, 6620516959819538809⟩

/-- SHA-512 digest of a byte list, rendered as lowercase hex — the value
`hex::encode(Sha512::digest(data))` computes in the sources. -/
def sha512hex (msg : List Nat) : String :=
  let padded := sha512pad msg
  let hf := (chunkBlocks 128 padded.length padded).foldl
    (fun h b => compressBlock512 h (bytesToWords64 b)) H512init
  String.mk (([hf.a, hf.b, hf.c, hf.d, hf.e, hf.f, hf.g, hf.h].map (toHexNat 16)).flatten)

/-! ## Crate `distro`: registry (`lib.rs`), `arch.rs`, `error.rs` -/

/-- Target CPU architecture (`arch.rs`). -/
inductive Arch
  | Aarch64
  | X86_64
deriving DecidableEq

/-- Linux-kernel-style architecture name. -/
def Arch.linux_name : Arch → String
  | .Aarch64 => "aarch64"
  | .X86_64 => "x86_64"

/-- Debian-style architecture name. -/
def Arch.deb_name : Arch → String
  | .Aarch64 => "arm64"
  | .X86_64 => "amd64"

/-- Architecture name used by LXC Images (same as Debian style). -/
def Arch.lxc_name (a : Arch) : String := a.deb_name

/-- A distribution version string is opaque (`Version` newtype over `String`
in `lib.rs`). -/
abbrev Version := String

/-- Supported Linux distributions (`lib.rs`). -/
inductive Distro
  | Alma
  | Alpine
  | Arch
  | CentOS
  | Debian
  | Devuan
  | Fedora
  | Gentoo
  | Kali
  | NixOS
  | OpenEuler
  | OpenSuse
  | Oracle
  | Rocky
  | Ubuntu
  | Void
deriving DecidableEq

/-- String identifier used in cache paths. -/
def Distro.as_str : Distro → String
  | .Alma => "alma"
  | .Alpine => "alpine"
  | .Arch => "arch"
  | .CentOS => "centos"
  | .Debian => "debian"
  | .Devuan => "devuan"
  | .Fedora => "fedora"
  | .Gentoo => "gentoo"
  | .Kali => "kali"
  | .NixOS => "nixos"
  | .OpenEuler => "openeuler"
  | .OpenSuse => "opensuse"
  | .Oracle => "oracle"
  | .Rocky => "rocky"
  | .Ubuntu => "ubuntu"
  | .Void => "void"

/-- Name used in the LXC Images index. -/
def Distro.lxc_name : Distro → String
  | .Alma => "almalinux"
  | .Alpine => "alpine"
  | .Arch => "archlinux"
  | .CentOS => "centos"
  | .Debian => "debian"
  | .Devuan => "devuan"
  | .Fedora => "fedora"
  | .Gentoo => "gentoo"
  | .Kali => "kali"
  | .NixOS => "nixos"
  | .OpenEuler => "openeuler"
  | .OpenSuse => "opensuse"
  | .Oracle => "oracle"
  | .Rocky => "rockylinux"
  | .Ubuntu => "ubuntu"
  | .Void => "voidlinux"

/-- Maps a user-facing version to the LXC release name (codenames for
Ubuntu/Debian/Devuan, pass-through otherwise). -/
def Distro.lxc_release (d : Distro) (version : Version) : String :=
  match d with
  | .Ubuntu =>
    if version = "20.04" then "focal"
    else if version = "22.04" then "jammy"
    else if version = "24.04" then "noble"
    else if version = "24.10" then "oracular"
    else if version = "25.04" then "plucky"
    else version
  | .Debian =>
    if version = "10" then "buster"
    else if version = "11" then "bullseye"
    else if version = "12" then "bookworm"
    else if version = "13" then "trixie"
    else version
  | .Devuan =>
    if version = "4" then "chimaera"
    else if version = "5" then "daedalus"
    else if version = "6" then "excalibur"
    else version
  | .OpenSuse =>
    if version = "15.6" then "15.6"
    else if version = "16.0" then "16.0"
    else if version = "tumbleweed" then "tumbleweed"
    else version
  | _ => version

/-- Errors of the `distro` crate (`error.rs`). `Http` and `Io` carry their
payloads in the source; the payloads play no role here. -/
inductive Error
  | UnsupportedDistro (name : String)
  | UnsupportedVersion (distro : String) (version : String)
  | Http
  | ChecksumMismatch (expected : String) (actual : String)
  | ChecksumParse
  | Io
  | ProductNotFound (distro : String) (version : String) (arch : String)
  | RootfsNotFound (product_key : String)
deriving DecidableEq

/-! ## Crate `distro`: `mirror.rs` -/

/-- LXC Images mirror selection. -/
inductive Mirror
  | Official
  | Tuna
  | Ustc
  | Bfsu
  | Custom (url : String)
deriving DecidableEq

/-- Base URL of a mirror, no trailing slash. -/
def Mirror.base_url : Mirror → String
  | .Official => "https://images.linuxcontainers.org"
  | .Tuna => "https://mirrors.tuna.tsinghua.edu.cn/lxc-images"
  | .Ustc => "https://mirrors.ustc.edu.cn/lxc-images"
  | .Bfsu => "https://mirrors.bfsu.edu.cn/lxc-images"
  | .Custom url => String.mk (url.data.reverse.dropWhile (fun c => c = '/')).reverse

/-- Full download URL for an image path from the index. -/
def Mirror.image_url (m : Mirror) (path : String) : String :=
  m.base_url ++ "/" ++ path

/-! ## Crate `distro`: `provider/mod.rs` -/

/-- Hash algorithm used in checksum files. -/
inductive HashAlgorithm
  | Sha256
  | Sha512
deriving DecidableEq

/-- How a distro's checksum file is formatted. -/
inductive ChecksumFormat
  | SingleEntry
  | GnuCoreutils
  | Bsd
deriving DecidableEq

/-- How the architecture string appears in URLs. -/
inductive ArchNaming
  | Linux
  | Debian
deriving DecidableEq

/-- Resolve an architecture name through the naming convention. -/
def ArchNaming.resolve (n : ArchNaming) (arch : Arch) : String :=
  match n with
  | .Linux => arch.linux_name
  | .Debian => arch.deb_name

/-- How to transform the raw version string before interpolating into URLs. -/
inductive VersionTransform
  | Identity
  | MajorMinor
deriving DecidableEq

/-- Static configuration that fully describes how to download and verify a
distribution's rootfs image. -/
structure DistroSpec where
  rootfs_url : String
  checksum_url : Option String
  checksum_format : ChecksumFormat
  hash_algorithm : HashAlgorithm
  arch_naming : ArchNaming
  codename_table : Option (List (String × String))
  default_codename : String
  version_transform : VersionTransform
deriving DecidableEq

/-- The single provider implementation driven entirely by a `DistroSpec`. -/
structure TemplateProvider where
  spec : DistroSpec
deriving DecidableEq

/-- Codename lookup: exact version match in the table, default on a miss or
when no table exists. -/
def TemplateProvider.resolve_codename (p : TemplateProvider) (version : Version) : String :=
  match p.spec.codename_table with
  | some table =>
    match table.find? (fun pr => pr.1 = version) with
    | some pr => pr.2
    | none => p.spec.default_codename
  | none => p.spec.default_codename

/-- Version transform for the `{major_minor}` placeholder: cut after the
second dot-separated segment when requested, identity otherwise. -/
def TemplateProvider.resolve_major_minor (p : TemplateProvider) (version : Version) : String :=
  match p.spec.version_transform with
  | .Identity => version
  | .MajorMinor =>
    match splitOnceP (fun c => c = '.') version.data with
    | none => version
    | some (a, rest) =>
      match splitOnceP (fun c => c = '.') rest with
      | none => version
      | some (b, _) => String.mk (a ++ '.' :: b)

/-- Placeholder substitution in a URL template (literal replacement of each
placeholder token, as Rust `str::replace`). -/
def TemplateProvider.resolve_url (p : TemplateProvider) (template : String) (version : Version)
    (arch : Arch) : String :=
  let arch_str := p.spec.arch_naming.resolve arch
  let codename := p.resolve_codename version
  let major_minor := p.resolve_major_minor version
  ((( template.replace "{version}" version
    ).replace "{arch}" arch_str
    ).replace "{codename}" codename
    ).replace "{major_minor}" major_minor

/-- Resolved rootfs download URL. -/
def TemplateProvider.rootfs_url (p : TemplateProvider) (version : Version) (arch : Arch) : String :=
  p.resolve_url p.spec.rootfs_url version arch

/-- Resolved checksum file URL, when the spec defines one. -/
def TemplateProvider.checksum_url (p : TemplateProvider) (version : Version) (arch : Arch) :
    Option String :=
  p.spec.checksum_url.map (fun tpl => p.resolve_url tpl version arch)

/-- Hash algorithm declared by the provider's specification. -/
def TemplateProvider.hash_algorithm (p : TemplateProvider) : HashAlgorithm :=
  p.spec.hash_algorithm

/-- Single-entry grammar: the first whitespace-delimited token of the first
line, lowercased; the filename argument is ignored. -/
def parseSingleEntry (content : String) : Except Error String :=
  match rustLines content with
  | [] => Except.error Error.ChecksumParse
  | line :: _ =>
    match firstToken line.data with
    | none => Except.error Error.ChecksumParse
    | some t => Except.ok (String.mk (lowerAscii t))

/-- GNU-coreutils grammar, one line at a time: split at the first whitespace
character into hash and remainder, strip leading whitespace then leading
`'*'` from the remainder, succeed on an exact filename match. -/
def parseGnuLines (filename : String) : List String → Except Error String
  | [] => Except.error Error.ChecksumParse
  | line :: rest =>
    match splitOnceP isWsp line.data with
    | none => parseGnuLines filename rest
    | some (hash, r) =>
      if (r.dropWhile isWsp).dropWhile (fun c => c = '*') = filename.data
      then Except.ok (String.mk (lowerAscii hash))
      else parseGnuLines filename rest

/-- GNU-coreutils grammar over a whole checksum file. -/
def parseGnuCoreutils (content filename : String) : Except Error String :=
  parseGnuLines filename (rustLines content)

/-- Characters strictly between the first `'('` and the first `')'` of a
line (the Rust slice `line[start+1..end]`; the source would panic if `')'`
preceded `'('` — this model then yields the empty list, a case no spec input
reaches). -/
def parenSlice (cs : List Char) (start stop : Nat) : List Char :=
  (cs.drop (start + 1)).take (stop - (start + 1))

/-- BSD grammar, one line at a time: lines starting with `"SHA"`, filename
inside the parentheses, hash after the last `'='`, trimmed and lowercased. -/
def parseBsdLines (filename : String) : List String → Except Error String
  | [] => Except.error Error.ChecksumParse
  | line :: rest =>
    if !(strStartsWith line "SHA") then parseBsdLines filename rest
    else match line.data.findIdx? (fun c => c = '('), line.data.findIdx? (fun c => c = ')') with
      | some start, some stop =>
        if parenSlice line.data start stop = filename.data then
          Except.ok (String.mk (lowerAscii (trimChars
            (line.data.reverse.takeWhile (fun c => c ≠ '=')).reverse)))
        else parseBsdLines filename rest
      | _, _ => parseBsdLines filename rest

/-- Parse a checksum file according to the provider spec's format
(`parse_checksum_impl`). -/
def TemplateProvider.parse_checksum_impl (p : TemplateProvider) (content filename : String) :
    Except Error String :=
  match p.spec.checksum_format with
  | .SingleEntry => parseSingleEntry content
  | .GnuCoreutils => parseGnuCoreutils content filename
  | .Bsd => parseBsdLines filename (rustLines content)

/-- Public checksum parsing entry point. -/
def TemplateProvider.parse_checksum (p : TemplateProvider) (content filename : String) :
    Except Error String :=
  p.parse_checksum_impl content filename

/-- Alpine Linux official source specification. -/
def ALPINE : DistroSpec where
  rootfs_url := "https://dl-cdn.alpinelinux.org/alpine/v{major_minor}/releases/{arch}/alpine-minirootfs-{version}-{arch}.tar.gz"
  checksum_url := some "https://dl-cdn.alpinelinux.org/alpine/v{major_minor}/releases/{arch}/alpine-minirootfs-{version}-{arch}.tar.gz.sha256"
  checksum_format := ChecksumFormat.SingleEntry
  hash_algorithm := HashAlgorithm.Sha256
  arch_naming := ArchNaming.Linux
  codename_table := none
  default_codename := ""
  version_transform := VersionTransform.MajorMinor

/-- Ubuntu cloud images official source specification. -/
def UBUNTU : DistroSpec where
  rootfs_url := "https://cloud-images.ubuntu.com/{codename}/current/{codename}-server-cloudimg-{arch}-root.tar.xz"
  checksum_url := some "https://cloud-images.ubuntu.com/{codename}/current/SHA256SUMS"
  checksum_format := ChecksumFormat.GnuCoreutils
  hash_algorithm := HashAlgorithm.Sha256
  arch_naming := ArchNaming.Debian
  codename_table := some [("20.04", "focal"), ("22.04", "jammy"), ("24.04", "noble"),
    ("24.10", "oracular"), ("25.04", "plucky")]
  default_codename := "noble"
  version_transform := VersionTransform.Identity

/-- Debian cloud images official source specification. -/
def DEBIAN : DistroSpec where
  rootfs_url := "https://cloud.debian.org/images/cloud/{codename}/latest/debian-{version}-nocloud-{arch}.tar.xz"
  checksum_url := some "https://cloud.debian.org/images/cloud/{codename}/latest/SHA512SUMS"
  checksum_format := ChecksumFormat.GnuCoreutils
  hash_algorithm := HashAlgorithm.Sha512
  arch_naming := ArchNaming.Debian
  codename_table := some [("10", "buster"), ("11", "bullseye"), ("12", "bookworm"),
    ("13", "trixie")]
  default_codename := "bookworm"
  version_transform := VersionTransform.Identity

/-- Fedora cloud images official source specification. -/
def FEDORA : DistroSpec where
  rootfs_url := "https://download.fedoraproject.org/pub/fedora/linux/releases/{version}/Cloud/{arch}/images/Fedora-Cloud-Base-{version}-1.2.{arch}.raw.xz"
  checksum_url := some "https://download.fedoraproject.org/pub/fedora/linux/releases/{version}/Cloud/{arch}/images/Fedora-Cloud-{version}-1.2-{arch}-CHECKSUM"
  checksum_format := ChecksumFormat.Bsd
  hash_algorithm := HashAlgorithm.Sha256
  arch_naming := ArchNaming.Linux
  codename_table := none
  default_codename := ""
  version_transform := VersionTransform.Identity

/-- Official template provider for a distro, when one is defined. -/
def get_official_provider (distro : Distro) : Option TemplateProvider :=
  match distro with
  | .Alpine => some ⟨ALPINE⟩
  | .Ubuntu => some ⟨UBUNTU⟩
  | .Debian => some ⟨DEBIAN⟩
  | .Fedora => some ⟨FEDORA⟩
  | _ => none

/-! ## Crate `distro`: `lxc.rs` — Simplestreams index client

The JSON `HashMap`s become association lists (first-match lookup); the
source's `keys().max()` becomes a fold computing the maximum key under the
Rust string order. -/

/-- A downloadable file within a product version. -/
structure Item where
  ftype : String
  sha256 : String
  size : Nat
  path : String
deriving DecidableEq

/-- A specific build of a product: item key to downloadable file. -/
structure ProductVersion where
  items : List (String × Item)
deriving DecidableEq

/-- A single product (distro + release + arch + variant). -/
structure Product where
  arch : String
  os : String
  release : String
  release_title : String
  variant : String
  versions : List (String × ProductVersion)
deriving DecidableEq

/-- Top-level Simplestreams `images.json` structure. -/
structure SimplestreamsIndex where
  products : List (String × Product)
deriving DecidableEq

/-- Resolved image info from the Simplestreams index. -/
structure ResolvedImage where
  url : String
  sha256 : String
  size : Nat
  filename : String
deriving DecidableEq

/-- Association-list lookup (the `HashMap::get` of the model). -/
def alookup {β : Type} (key : String) : List (String × β) → Option β
  | [] => none
  | (k, v) :: rest => if k = key then some v else alookup key rest

/-- One step of Rust `Iterator::max` over strings: keep the later element
on ties (keys of a map are distinct, so ties never arise there). -/
def maxAcc (acc : Option String) (k : String) : Option String :=
  match acc with
  | none => some k
  | some m => if strLe m k then some k else some m

/-- Rust `Iterator::max` over strings. -/
def maxKey? (l : List String) : Option String := l.foldl maxAcc none

/-- The Simplestreams product key `"{distro}:{release}:{arch}:{variant}"`. -/
def product_key (distro : Distro) (version : Version) (arch : Arch) (variant : String) : String :=
  distro.lxc_name ++ ":" ++ distro.lxc_release version ++ ":" ++ arch.lxc_name ++ ":" ++ variant

/-- The variant loop of `resolve_from_index`: try each variant's product key
in order, returning the first product present together with the key used. -/
def findVariant (products : List (String × Product)) (mkKey : String → String) :
    List String → Option (Product × String)
  | [] => none
  | v :: rest =>
    match alookup (mkKey v) products with
    | some p => some (p, mkKey v)
    | none => findVariant products mkKey rest

/-- The tail of `resolve_from_index` after a product was matched: select the
latest build by maximal timestamp key, find the rootfs item (by canonical
ftype, else by path suffix), and assemble the `ResolvedImage`. -/
def resolveProduct (mirror : Mirror) (used_key : String) (product : Product) :
    Except Error ResolvedImage :=
  match maxKey? (product.versions.map (fun pr => pr.1)) with
  | none => Except.error (Error.RootfsNotFound used_key)
  | some latest =>
    let version_data := (alookup latest product.versions).getD ⟨[]⟩
    let itemList := version_data.items.map (fun pr => pr.2)
    match (itemList.find? (fun item => item.ftype = "root.tar.xz")).orElse
        (fun _ => itemList.find? (fun item => strEndsWith item.path "rootfs.tar.xz")) with
    | none => Except.error (Error.RootfsNotFound used_key)
    | some item =>
      Except.ok
        { url := mirror.image_url item.path
          sha256 := item.sha256
          size := item.size
          filename := lastSegment item.path }

/-- `LxcClient::resolve_from_index`: resolve an image from a pre-fetched
index, trying the `"default"` then the `"cloud"` variant. -/
def resolve_from_index (mirror : Mirror) (index : SimplestreamsIndex) (distro : Distro)
    (version : Version) (arch : Arch) : Except Error ResolvedImage :=
  let variants := ["default", "cloud"]
  match findVariant index.products (product_key distro version arch) variants with
  | none => Except.error (Error.ProductNotFound distro.as_str version arch.lxc_name)
  | some (product, used_key) => resolveProduct mirror used_key product

/-! ## Crate `distro`: `download.rs` — verification layer -/

/-- Result of a successful download: payload, its SHA-256 hex digest
(always computed), and the filename taken from the URL. -/
structure DownloadResult where
  data : List Nat
  sha256 : String
  filename : String
deriving DecidableEq

/-- On-demand SHA-512 digest of the payload. -/
def DownloadResult.sha512 (r : DownloadResult) : String := sha512hex r.data

/-- Digest selected by the declared hash algorithm: the stored primary
SHA-256 field, or the SHA-512 computed on demand. -/
def actual_hash (result : DownloadResult) (algorithm : HashAlgorithm) : String :=
  match algorithm with
  | .Sha256 => result.sha256
  | .Sha512 => result.sha512

/-- Compare the selected digest with the expected hash; a mismatch is a
`ChecksumMismatch` carrying both. -/
def verify_hash (expected : String) (result : DownloadResult) (algorithm : HashAlgorithm) :
    Except Error Unit :=
  let actual := actual_hash result algorithm
  if actual ≠ expected then Except.error (Error.ChecksumMismatch expected actual)
  else Except.ok ()

/-! ## Crate `distro-rootfs`: `error.rs` -/

/-- Errors of the `distro-rootfs` crate (named `Error` in its own crate;
renamed here because the `distro` crate's `Error` already has that name).
Payloads of the wrapped errors play no role in the model. -/
inductive RootfsError
  | Distro (e : Error)
  | Io
  | Json
  | UnsupportedFormat (name : String)
deriving DecidableEq

/-! ## Crate `distro-rootfs`: `cache.rs`

A cache entry directory is a value: a flag for whether the directory
exists plus its files, keyed by name. `metadata.json` written by `store`
holds a serialized `CacheMetadata`; this is represented by the dedicated
`FileData.metaJson` constructor, whose on-disk bytes are produced by
`encodeMeta` (the exact `serde_json::to_string_pretty` rendering). The
system clock (`chrono_now`) is an input. -/

/-- Metadata stored alongside a cached rootfs archive. -/
structure CacheMetadata where
  distro : String
  version : String
  arch : String
  sha256 : String
  filename : String
  size : Nat
  downloaded_at : String
deriving DecidableEq

/-- JSON string escaping as `serde_json` performs it: quote, backslash, and
control characters (short escapes for the common ones, `\u00XX` otherwise). -/
def jsonEscapeChar (c : Char) : List Char :=
  if c = '"' then ['\\', '"']
  else if c = '\\' then ['\\', '\\']
  else if c.toNat ≥ 32 then [c]
  else if c.toNat = 8 then ['\\', 'b']
  else if c.toNat = 9 then ['\\', 't']
  else if c.toNat = 10 then ['\\', 'n']
  else if c.toNat = 12 then ['\\', 'f']
  else if c.toNat = 13 then ['\\', 'r']
  else '\\' :: 'u' :: '0' :: '0' :: toHexNat 2 c.toNat

/-- A JSON string literal. -/
def jsonString (s : String) : List Char :=
  '"' :: (s.data.map jsonEscapeChar).flatten ++ ['"']

/-- The exact bytes `serde_json::to_string_pretty` produces for a
`CacheMetadata` value (two-space indentation, fields in declaration
order, no trailing newline), UTF-8 encoded. -/
def encodeMeta (m : CacheMetadata) : List Nat :=
  strBytes (
    "\x7b\n  \"distro\": ".data ++ jsonString m.distro ++
    ",\n  \"version\": ".data ++ jsonString m.version ++
    ",\n  \"arch\": ".data ++ jsonString m.arch ++
    ",\n  \"sha256\": ".data ++ jsonString m.sha256 ++
    ",\n  \"filename\": ".data ++ jsonString m.filename ++
    ",\n  \"size\": ".data ++ (Nat.repr m.size).data ++
    ",\n  \"downloaded_at\": ".data ++ jsonString m.downloaded_at ++
    "\n\x7d".data)

/-- Contents of one file in an entry directory: raw archive bytes, or the
metadata sidecar (which `serde_json` parses back to the value it encodes). -/
inductive FileData
  | raw (bytes : List Nat)
  | metaJson (m : CacheMetadata)
deriving DecidableEq

/-- On-disk bytes of a file. -/
def fileBytes : FileData → List Nat
  | FileData.raw bytes => bytes
  | FileData.metaJson m => encodeMeta m

/-- A cache entry directory: existence flag plus named files. -/
structure EntryDir where
  present : Bool
  files : List (String × FileData)
deriving DecidableEq

/-- Writing a file: replace any file of that name, else add it. -/
def insertFile (files : List (String × FileData)) (name : String) (fd : FileData) :
    List (String × FileData) :=
  (name, fd) :: files.filter (fun p => decide (p.1 ≠ name))

/-- A handle to a cached rootfs archive: its metadata. The archive path of
the source (`entry_dir.join(&metadata.filename)`) is represented by the
`filename` key into the entry directory. -/
structure CachedRootfs where
  metadata : CacheMetadata
deriving DecidableEq

/-- `load_entry`: read the metadata sidecar (absent → not cached, raw
non-metadata content → serde decode error), then check the archive file
exists. No integrity verification. -/
def load_entry (d : EntryDir) : Except RootfsError (Option CachedRootfs) :=
  match alookup "metadata.json" d.files with
  | none => Except.ok none
  | some (FileData.raw _) => Except.error RootfsError.Json
  | some (FileData.metaJson m) =>
    match alookup m.filename d.files with
    | none => Except.ok none
    | some _ => Except.ok (some ⟨m⟩)

/-- `CachedRootfs::verify_integrity`: stream the archive file (8 KiB
chunks in the source; chunked SHA-256 of a file equals SHA-256 of its whole
contents) and compare the digest with the stored hash. A missing file is an
I/O error. -/
def verify_integrity (d : EntryDir) (c : CachedRootfs) : Except RootfsError Bool :=
  match alookup c.metadata.filename d.files with
  | none => Except.error RootfsError.Io
  | some fd => Except.ok (sha256hex (fileBytes fd) == c.metadata.sha256)

/-- Removal of the whole entry directory (`fs::remove_dir_all`, nominal
behaviour: the source ignores a failed removal, the model removes). -/
def removeDirAll (_d : EntryDir) : EntryDir := ⟨false, []⟩

/-- `load_cached`: load and verify; on digest mismatch remove the corrupted
entry directory and report "not cached". Returns the result paired with the
entry directory's state afterwards. -/
def load_cached (d : EntryDir) : Except RootfsError (Option CachedRootfs) × EntryDir :=
  match load_entry d with
  | Except.error e => (Except.error e, d)
  | Except.ok none => (Except.ok none, d)
  | Except.ok (some cached) =>
    match verify_integrity d cached with
    | Except.error e => (Except.error e, d)
    | Except.ok true => (Except.ok (some cached), d)
    | Except.ok false => (Except.ok none, removeDirAll d)

/-- `store`: write the archive, derive distro/version/arch from the last
three directory components, write the metadata sidecar, return the handle.
`entry_dir_components` is the component list of the entry directory path;
`now` is the `chrono_now()` clock reading (decimal epoch seconds). -/
def store (entry_dir_components : List String) (now : String) (result : DownloadResult)
    (d : EntryDir) : CachedRootfs × EntryDir :=
  let d1 : EntryDir := ⟨d.present, insertFile d.files result.filename (FileData.raw result.data)⟩
  let components := entry_dir_components.reverse.take 3
  let metadata : CacheMetadata :=
    { distro := components.getD 2 "unknown"
      version := components.getD 1 "unknown"
      arch := components.getD 0 "unknown"
      sha256 := result.sha256
      filename := result.filename
      size := result.data.length
      downloaded_at := now }
  let d2 : EntryDir := ⟨d1.present, insertFile d1.files "metadata.json" (FileData.metaJson metadata)⟩
  (⟨metadata⟩, d2)

/-! ### `prune`

`prune` runs over the `list_all` listing. An entry is listed metadata plus
the identity of its directory (an abstract `Nat`); whether a directory's
`remove_dir_all` succeeds is the filesystem's behaviour, supplied as the
predicate `removeOk`. The source's `HashMap` grouping iterates in
unspecified order; the model groups in first-occurrence order (freed bytes
and the removal set are unions over groups, so group order is
immaterial). -/

/-- One cache entry as seen by `prune`: directory identity plus metadata. -/
structure CacheEntry where
  dir : Nat
  meta : CacheMetadata
deriving DecidableEq

/-- Append an entry to its distro's group, keeping insertion order (the
behaviour of `HashMap::entry().or_default().push`). -/
def addToGroup (gs : List (String × List CacheEntry)) (k : String) (e : CacheEntry) :
    List (String × List CacheEntry) :=
  match gs with
  | [] => [(k, [e])]
  | (k', es) :: rest =>
    if k' = k then (k', es ++ [e]) :: rest else (k', es) :: addToGroup rest k e

/-- Group the listing by distribution. -/
def groupByDistro (entries : List CacheEntry) : List (String × List CacheEntry) :=
  entries.foldl (fun gs e => addToGroup gs e.meta.distro e) []

/-- Sort order of `entries.sort_by(|a, b| b.downloaded_at.cmp(&a.downloaded_at))`:
newest (largest timestamp) first. -/
def newerFirst (a b : CacheEntry) : Bool :=
  strLe b.meta.downloaded_at a.meta.downloaded_at

/-- The removal loop over the entries beyond the keep limit: count the size
of — and record — every entry whose directory removal succeeds. -/
def pruneGroupLoop (removeOk : Nat → Bool) (acc : Nat × List Nat) (olds : List CacheEntry) :
    Nat × List Nat :=
  olds.foldl
    (fun a old => if removeOk old.dir then (a.1 + old.meta.size, a.2 ++ [old.dir]) else a) acc

/-- `prune`: group by distro, sort each group newest-first, remove entries
beyond `keep_latest`. Returns the freed bytes (the source's return value)
paired with the directories actually removed (the source's filesystem
effect). -/
def prune (removeOk : Nat → Bool) (keep_latest : Nat) (entries : List CacheEntry) :
    Nat × List Nat :=
  (groupByDistro entries).foldl
    (fun acc g => pruneGroupLoop removeOk acc ((g.2.mergeSort newerFirst).drop keep_latest))
    (0, [])

/-- The entries still on disk after `prune`: those whose directory was not
removed. -/
def pruneRemaining (removeOk : Nat → Bool) (keep_latest : Nat) (entries : List CacheEntry) :
    List CacheEntry :=
  entries.filter (fun e => !((prune removeOk keep_latest entries).2.contains e.dir))

/-! ## Crate `distro-rootfs`: `extract.rs` -/

/-- Supported archive formats for rootfs tarballs. -/
inductive ExtractFormat
  | TarGz
  | TarXz
deriving DecidableEq

/-- `ExtractFormat::detect`: classify by file-name suffix; anything not in
the two compressed-tar families is `UnsupportedFormat`. -/
def ExtractFormat.detect (name : String) : Except RootfsError ExtractFormat :=
  if strEndsWith name ".tar.gz" || strEndsWith name ".tgz" then Except.ok ExtractFormat.TarGz
  else if strEndsWith name ".tar.xz" || strEndsWith name ".txz" then Except.ok ExtractFormat.TarXz
  else Except.error (RootfsError.UnsupportedFormat name)

/-- The target directory of an extraction: existence flag plus the
(abstract) names unpacked into it. -/
structure TargetDir where
  created : Bool
  entries : List String
deriving DecidableEq

/-- `fs::create_dir_all` on the target. -/
def create_dir_all (t : TargetDir) : TargetDir := ⟨true, t.entries⟩

/-- `extract_archive`: creates the target directory, then delegates to the
external decompression/unpacking capability `unpack` (the `flate2`/`xz2` +
`tar` pipeline), which may fail. -/
def extract_archive (unpack : ExtractFormat → TargetDir → Except RootfsError TargetDir)
    (format : ExtractFormat) (t : TargetDir) : Except RootfsError Unit × TargetDir :=
  let t1 := create_dir_all t
  match unpack format t1 with
  | Except.ok t2 => (Except.ok (), t2)
  | Except.error e => (Except.error e, t1)

/-- `CachedRootfs::extract_to`: detect the format from the archive path's
file name, then extract. Detection failure returns before any I/O against
the target. -/
def extract_to (unpack : ExtractFormat → TargetDir → Except RootfsError TargetDir)
    (c : CachedRootfs) (t : TargetDir) : Except RootfsError Unit × TargetDir :=
  match ExtractFormat.detect (lastSegment c.metadata.filename) with
  | Except.error e => (Except.error e, t)
  | Except.ok format => extract_archive unpack format t

deriving instance DecidableEq for Except

/-! # Theorems

Shared helper lemmas first, then one theorem per claim (with a witness
where the theorem carries hypotheses). -/

/-! ## Association-list and file-map lemmas -/

theorem alookup_filter_ne {β : Type} (files : List (String × β)) (name m : String)
    (h : m ≠ name) :
    alookup m (files.filter (fun p => decide (p.1 ≠ name))) = alookup m files := by
  induction files with
  | nil => rfl
  | cons p rest ih =>
    obtain ⟨k, v⟩ := p
    rw [List.filter_cons]
    by_cases hk : k = name
    · have hd : (decide ((k, v).1 ≠ name)) = false := by simp [hk]
      rw [hd]
      simp only [Bool.false_eq_true, if_false]
      rw [ih]
      have hne : ¬(k = m) := by rw [hk]; exact fun hh => h hh.symm
      simp only [alookup, hne, if_false]
    · have hd : (decide ((k, v).1 ≠ name)) = true := by simp [hk]
      rw [hd]
      simp only [if_true]
      simp only [alookup]
      by_cases hm : k = m
      · simp only [hm, if_true]
      · simp only [hm, if_false]
        exact ih

theorem alookup_insertFile_self (files : List (String × FileData)) (name : String)
    (fd : FileData) : alookup name (insertFile files name fd) = some fd := by
  simp [insertFile, alookup]

theorem alookup_insertFile_ne (files : List (String × FileData)) (name m : String)
    (fd : FileData) (h : m ≠ name) :
    alookup m (insertFile files name fd) = alookup m files := by
  have hne : name ≠ m := fun hh => h hh.symm
  simp only [insertFile, alookup, hne, if_false]
  exact alookup_filter_ne files name m h

/-! ## Claim C1 -/

/-- Claim C1: for every cache entry directory containing metadata and its
archive file, if the SHA-256 digest of the archive bytes differs from the
sha256 stored in the metadata, then `load_cached` reports "not cached"
(`Ok(None)`, not an error) and removes the entire entry directory, so a
subsequent existence check on that directory is false and no file of the
entry remains. -/
theorem load_cached_corrupted_removes_entry
    (d : EntryDir) (m : CacheMetadata) (fd : FileData)
    (hmeta : alookup "metadata.json" d.files = some (FileData.metaJson m))
    (harch : alookup m.filename d.files = some fd)
    (hbad : sha256hex (fileBytes fd) ≠ m.sha256) :
    (load_cached d).1 = Except.ok none ∧
    (load_cached d).2.present = false ∧
    (load_cached d).2.files = [] := by
  have hbeq : (sha256hex (fileBytes fd) == m.sha256) = false :=
    beq_eq_false_iff_ne.mpr hbad
  simp only [load_cached, load_entry, verify_integrity, hmeta, harch, hbeq]
  simp [removeDirAll]

/-- Witness for C1: a concrete entry whose stored hash cannot match. -/
theorem load_cached_corrupted_removes_entry_witness :
    (load_cached ⟨true,
        [("metadata.json", FileData.metaJson
            ⟨"alpine", "3.21", "aarch64", "deadbeef", "rootfs.tar.gz", 1, "0"⟩),
         ("rootfs.tar.gz", FileData.raw [0])]⟩).1 = Except.ok none ∧
    (load_cached ⟨true,
        [("metadata.json", FileData.metaJson
            ⟨"alpine", "3.21", "aarch64", "deadbeef", "rootfs.tar.gz", 1, "0"⟩),
         ("rootfs.tar.gz", FileData.raw [0])]⟩).2.present = false ∧
    (load_cached ⟨true,
        [("metadata.json", FileData.metaJson
            ⟨"alpine", "3.21", "aarch64", "deadbeef", "rootfs.tar.gz", 1, "0"⟩),
         ("rootfs.tar.gz", FileData.raw [0])]⟩).2.files = [] :=
  load_cached_corrupted_removes_entry _ _ _ (by rfl) (by rfl) (by decide)

/-! ## Claim C2 -/

/-- Helper for C2: looking up a directory holding a well-hashed archive
plus its metadata sidecar succeeds with the sidecar's metadata. -/
theorem load_cached_after_writes (pres : Bool) (files : List (String × FileData))
    (r : DownloadResult) (m : CacheMetadata)
    (hf : m.filename = r.filename)
    (hs : m.sha256 = sha256hex r.data)
    (hname : r.filename ≠ "metadata.json") :
    (load_cached ⟨pres, insertFile (insertFile files r.filename (FileData.raw r.data))
        "metadata.json" (FileData.metaJson m)⟩).1 = Except.ok (some ⟨m⟩) := by
  have hm := alookup_insertFile_self
    (insertFile files r.filename (FileData.raw r.data)) "metadata.json" (FileData.metaJson m)
  have ha : alookup m.filename
      (insertFile (insertFile files r.filename (FileData.raw r.data)) "metadata.json"
        (FileData.metaJson m)) = some (FileData.raw r.data) := by
    rw [hf, alookup_insertFile_ne _ _ _ _ hname]
    exact alookup_insertFile_self _ _ _
  simp only [load_cached, load_entry, verify_integrity, hm, ha, fileBytes, hs]
  simp

/-- Claim C2 (amended): for every download result whose `sha256` field is
the SHA-256 hex digest of its data and whose filename is not the metadata
sidecar name `"metadata.json"`, storing it and then looking the directory
up returns `Some` of the stored handle, whose metadata carries the same
sha256, the same filename, and the byte length of the data as size. -/
theorem store_load_cached_roundtrip
    (segs : List String) (now : String) (r : DownloadResult) (d : EntryDir)
    (hsha : r.sha256 = sha256hex r.data)
    (hname : r.filename ≠ "metadata.json") :
    (load_cached (store segs now r d).2).1 = Except.ok (some (store segs now r d).1) ∧
    (store segs now r d).1.metadata.sha256 = r.sha256 ∧
    (store segs now r d).1.metadata.filename = r.filename ∧
    (store segs now r d).1.metadata.size = r.data.length := by
  refine ⟨?_, rfl, rfl, rfl⟩
  exact load_cached_after_writes d.present d.files r _ rfl hsha hname

/-- Witness for C2 (amended): a concrete well-hashed download result
round-trips. -/
theorem store_load_cached_roundtrip_witness :
    (load_cached (store ["alpine", "3.21", "aarch64"] "77"
        ⟨[1, 2], sha256hex [1, 2], "rootfs.tar.gz"⟩ ⟨true, []⟩).2).1 =
      Except.ok (some (store ["alpine", "3.21", "aarch64"] "77"
        ⟨[1, 2], sha256hex [1, 2], "rootfs.tar.gz"⟩ ⟨true, []⟩).1) ∧
    (store ["alpine", "3.21", "aarch64"] "77"
        ⟨[1, 2], sha256hex [1, 2], "rootfs.tar.gz"⟩ ⟨true, []⟩).1.metadata.sha256 =
      sha256hex [1, 2] ∧
    (store ["alpine", "3.21", "aarch64"] "77"
        ⟨[1, 2], sha256hex [1, 2], "rootfs.tar.gz"⟩ ⟨true, []⟩).1.metadata.filename =
      "rootfs.tar.gz" ∧
    (store ["alpine", "3.21", "aarch64"] "77"
        ⟨[1, 2], sha256hex [1, 2], "rootfs.tar.gz"⟩ ⟨true, []⟩).1.metadata.size = 2 :=
  store_load_cached_roundtrip _ _ _ _ rfl (by decide)

/-- Counterexample to claim C2 as stated: a download result named
`"metadata.json"` satisfies the claim's hypothesis (its `sha256` field is
the digest of its data), yet after `store` (whose metadata sidecar
overwrites the archive file of that name) the lookup finds a digest
mismatch and reports "not cached" instead of returning a handle. -/
theorem store_load_cached_roundtrip_counterexample :
    (⟨[120], sha256hex [120], "metadata.json"⟩ : DownloadResult).sha256 =
      sha256hex (⟨[120], sha256hex [120], "metadata.json"⟩ : DownloadResult).data ∧
    (load_cached (store ["alpine", "3.21", "aarch64"] "0"
        ⟨[120], sha256hex [120], "metadata.json"⟩ ⟨true, []⟩).2).1 = Except.ok none :=
  ⟨rfl, by decide⟩

/-! ## Order lemmas for the Rust string comparison -/

theorem charEq_of_toNat_eq {a b : Char} (h : a.toNat = b.toNat) : a = b := by
  rw [← Char.ofNat_toNat a, ← Char.ofNat_toNat b, h]

theorem lexLt_irrefl (a : List Char) : lexLt a a = false := by
  induction a with
  | nil => rfl
  | cons c cs ih => simp [lexLt, ih]

theorem lexLt_trans : ∀ (a b c : List Char), lexLt a b = true → lexLt b c = true →
    lexLt a c = true := by
  intro a
  induction a with
  | nil =>
    intro b c h1 h2
    cases b with
    | nil => simp [lexLt] at h1
    | cons y ys =>
      cases c with
      | nil => simp [lexLt] at h2
      | cons z zs => rfl
  | cons x xs ih =>
    intro b c h1 h2
    cases b with
    | nil => simp [lexLt] at h1
    | cons y ys =>
      cases c with
      | nil => simp [lexLt] at h2
      | cons z zs =>
        simp only [lexLt] at h1 h2 ⊢
        rcases Nat.lt_trichotomy x.toNat y.toNat with hxy | hxy | hxy
        · rcases Nat.lt_trichotomy y.toNat z.toNat with hyz | hyz | hyz
          · have hxz : x.toNat < z.toNat := Nat.lt_trans hxy hyz
            simp [hxz]
          · have hxz : x.toNat < z.toNat := hyz ▸ hxy
            simp [hxz]
          · simp [Nat.lt_asymm hyz, Nat.lt_irrefl, hyz] at h2
        · rcases Nat.lt_trichotomy y.toNat z.toNat with hyz | hyz | hyz
          · have hxz : x.toNat < z.toNat := hxy ▸ hyz
            simp [hxz]
          · have h1' : lexLt xs ys = true := by
              rw [if_neg (by omega : ¬ x.toNat < y.toNat),
                if_neg (by omega : ¬ y.toNat < x.toNat)] at h1
              exact h1
            have h2' : lexLt ys zs = true := by
              rw [if_neg (by omega : ¬ y.toNat < z.toNat),
                if_neg (by omega : ¬ z.toNat < y.toNat)] at h2
              exact h2
            rw [if_neg (by omega : ¬ x.toNat < z.toNat),
              if_neg (by omega : ¬ z.toNat < x.toNat)]
            exact ih ys zs h1' h2'
          · simp [Nat.lt_asymm hyz, Nat.lt_irrefl, hyz] at h2
        · simp [Nat.lt_asymm hxy, Nat.lt_irrefl, hxy] at h1

theorem lexLt_connex : ∀ (a b : List Char), lexLt a b = false → lexLt b a = false → a = b := by
  intro a
  induction a with
  | nil =>
    intro b h1 _
    cases b with
    | nil => rfl
    | cons y ys => simp [lexLt] at h1
  | cons x xs ih =>
    intro b h1 h2
    cases b with
    | nil => simp [lexLt] at h2
    | cons y ys =>
      simp only [lexLt] at h1 h2
      rcases Nat.lt_trichotomy x.toNat y.toNat with hxy | hxy | hxy
      · simp [hxy] at h1
      · have hyx : ¬ y.toNat < x.toNat := by omega
        have hxy' : ¬ x.toNat < y.toNat := by omega
        simp only [if_neg hxy', if_neg hyx] at h1 h2
        rw [charEq_of_toNat_eq hxy, ih ys h1 h2]
      · simp [hxy, Nat.lt_asymm hxy] at h2

theorem lexLt_asymm {a b : List Char} (h : lexLt a b = true) : lexLt b a = false := by
  by_contra hc
  have hba : lexLt b a = true := by
    cases hx : lexLt b a with
    | false => exact absurd hx hc
    | true => rfl
  have := lexLt_trans a b a h hba
  rw [lexLt_irrefl] at this
  exact Bool.false_ne_true this

theorem strLt_connex {a b : String} (h1 : strLt a b = false) (h2 : strLt b a = false) : a = b :=
  String.ext (lexLt_connex a.data b.data h1 h2)

theorem strLe_refl (a : String) : strLe a a = true := by
  simp [strLe, strLt, lexLt_irrefl]

theorem strLe_total (a b : String) : (strLe a b || strLe b a) = true := by
  simp only [strLe, strLt, Bool.or_eq_true, Bool.not_eq_true']
  by_cases h : lexLt b.data a.data = true
  · exact Or.inr (lexLt_asymm h)
  · exact Or.inl (Bool.not_eq_true _ ▸ h)

theorem strLe_trans {a b c : String} (h1 : strLe a b = true) (h2 : strLe b c = true) :
    strLe a c = true := by
  simp only [strLe, strLt, Bool.not_eq_true'] at h1 h2 ⊢
  cases hca : lexLt c.data a.data with
  | false => rfl
  | true =>
    exfalso
    cases hab : lexLt a.data b.data with
    | true =>
      have hcb := lexLt_trans c.data a.data b.data hca hab
      rw [h2] at hcb
      exact Bool.false_ne_true hcb
    | false =>
      have heq : a = b := String.ext (lexLt_connex a.data b.data hab h1)
      rw [heq, h2] at hca
      exact Bool.false_ne_true hca

theorem strLe_ne_lt {a b : String} (h : strLe a b = true) (hne : a ≠ b) : strLt a b = true := by
  simp only [strLe, Bool.not_eq_true'] at h
  cases hx : strLt a b with
  | true => rfl
  | false => exact absurd (strLt_connex hx h) hne

/-! ## Claim C3 -/

theorem newerFirst_trans (a b c : CacheEntry) (h1 : newerFirst a b = true)
    (h2 : newerFirst b c = true) : newerFirst a c = true :=
  strLe_trans h2 h1

theorem newerFirst_total (a b : CacheEntry) : (newerFirst a b || newerFirst b a) = true :=
  strLe_total b.meta.downloaded_at a.meta.downloaded_at

theorem addToGroup_same (acc : List CacheEntry) (d0 : String) (e : CacheEntry) :
    addToGroup [(d0, acc)] d0 e = [(d0, acc ++ [e])] := by
  simp [addToGroup]

theorem groupByDistro_go (d0 : String) (l : List CacheEntry) :
    ∀ acc : List CacheEntry, (∀ e ∈ l, e.meta.distro = d0) →
      l.foldl (fun gs e => addToGroup gs e.meta.distro e) [(d0, acc)] = [(d0, acc ++ l)] := by
  induction l with
  | nil => intro acc _; simp
  | cons e rest ih =>
    intro acc h
    have he : e.meta.distro = d0 := h e (List.mem_cons_self e rest)
    rw [List.foldl_cons, he, addToGroup_same]
    rw [ih (acc ++ [e]) (fun x hx => h x (List.mem_cons_of_mem e hx))]
    simp

theorem groupByDistro_single (d0 : String) (entries : List CacheEntry)
    (h : ∀ e ∈ entries, e.meta.distro = d0) (hne : entries ≠ []) :
    groupByDistro entries = [(d0, entries)] := by
  cases entries with
  | nil => exact absurd rfl hne
  | cons e rest =>
    have he : e.meta.distro = d0 := h e (List.mem_cons_self e rest)
    unfold groupByDistro
    rw [List.foldl_cons]
    have : addToGroup [] e.meta.distro e = [(d0, [e])] := by rw [he]; rfl
    rw [this, groupByDistro_go d0 rest [e] (fun x hx => h x (List.mem_cons_of_mem e hx))]
    simp

theorem pruneGroupLoop_spec (removeOk : Nat → Bool) (olds : List CacheEntry) :
    ∀ (n : Nat) (l : List Nat),
      pruneGroupLoop removeOk (n, l) olds =
        (n + ((olds.filter (fun e => removeOk e.dir)).map (fun e => e.meta.size)).sum,
         l ++ (olds.filter (fun e => removeOk e.dir)).map (fun e => e.dir)) := by
  induction olds with
  | nil => intro n l; simp [pruneGroupLoop]
  | cons e rest ih =>
    intro n l
    simp only [pruneGroupLoop, List.foldl_cons] at ih ⊢
    cases h : removeOk e.dir with
    | true =>
      rw [if_pos rfl]
      rw [ih (n + e.meta.size) (l ++ [e.dir])]
      rw [List.filter_cons, h]
      simp [Nat.add_assoc]
    | false =>
      rw [if_neg (by simp)]
      rw [ih n l]
      rw [List.filter_cons, h]
      simp

theorem dir_inj_of_pairwise {l : List CacheEntry}
    (h : l.Pairwise (fun a b => a.dir ≠ b.dir)) :
    ∀ x ∈ l, ∀ y ∈ l, x.dir = y.dir → x = y := by
  induction l with
  | nil => intro x hx; exact absurd hx (List.not_mem_nil x)
  | cons e rest ih =>
    intro x hx y hy hxy
    rcases List.mem_cons.mp hx with hx | hx <;> rcases List.mem_cons.mp hy with hy | hy
    · rw [hx, hy]
    · exact absurd ((hx ▸ hxy : e.dir = y.dir)) ((List.pairwise_cons.mp h).1 y hy)
    · exact absurd ((hy ▸ hxy.symm : e.dir = x.dir)) ((List.pairwise_cons.mp h).1 x hx)
    · exact ih (List.pairwise_cons.mp h).2 x hx y hy hxy

/-- Claim C3: for a cache of entries of one distribution with pairwise
distinct timestamps and pairwise distinct directories, pruning with
retention `keep < N` (1) frees exactly the summed sizes of the removed
entries — an entry whose directory removal fails is not counted — (2)
removes exactly the directories beyond the newest `keep` whose removal
succeeds, (3even) keeps `keep` entries, (4) every retained-by-policy entry
has a strictly larger timestamp than every entry beyond the limit, and
(5) what remains on disk is the `keep` newest entries plus the entries
whose removal failed. -/
theorem prune_retains_latest
    (removeOk : Nat → Bool) (keep : Nat) (entries : List CacheEntry) (d0 : String)
    (hdistro : ∀ e ∈ entries, e.meta.distro = d0)
    (hts : entries.Pairwise (fun a b => a.meta.downloaded_at ≠ b.meta.downloaded_at))
    (hdirs : entries.Pairwise (fun a b => a.dir ≠ b.dir))
    (hkeep : keep < entries.length) :
    (prune removeOk keep entries).1 =
        ((((entries.mergeSort newerFirst).drop keep).filter (fun e => removeOk e.dir)).map
          (fun e => e.meta.size)).sum ∧
    (prune removeOk keep entries).2 =
        (((entries.mergeSort newerFirst).drop keep).filter (fun e => removeOk e.dir)).map
          (fun e => e.dir) ∧
    ((entries.mergeSort newerFirst).take keep).length = keep ∧
    (∀ a ∈ (entries.mergeSort newerFirst).take keep,
      ∀ b ∈ (entries.mergeSort newerFirst).drop keep,
        strLt b.meta.downloaded_at a.meta.downloaded_at = true) ∧
    (pruneRemaining removeOk keep entries).Perm
      ((entries.mergeSort newerFirst).take keep ++
        ((entries.mergeSort newerFirst).drop keep).filter (fun e => !(removeOk e.dir))) := by
  have hne : entries ≠ [] := by
    intro h
    rw [h] at hkeep
    simp at hkeep
  set sorted := entries.mergeSort newerFirst with hsorted
  have hperm : sorted.Perm entries := List.mergeSort_perm entries newerFirst
  have hgroup := groupByDistro_single d0 entries hdistro hne
  have hpr : prune removeOk keep entries =
      ((((sorted.drop keep).filter (fun e => removeOk e.dir)).map (fun e => e.meta.size)).sum,
       ((sorted.drop keep).filter (fun e => removeOk e.dir)).map (fun e => e.dir)) := by
    unfold prune
    rw [hgroup, List.foldl_cons, List.foldl_nil, pruneGroupLoop_spec]
    simp
  refine ⟨by rw [hpr], by rw [hpr], ?_, ?_, ?_⟩
  · rw [List.length_take, hperm.length_eq]
    exact Nat.min_eq_left (Nat.le_of_lt hkeep)
  · have hpwLe : sorted.Pairwise (fun a b => newerFirst a b = true) :=
      List.sorted_mergeSort newerFirst_trans newerFirst_total entries
    have hpwTs : sorted.Pairwise
        (fun a b => a.meta.downloaded_at ≠ b.meta.downloaded_at) :=
      (hperm.pairwise_iff (fun h hh => h hh.symm)).mpr hts
    have hsplit : sorted.take keep ++ sorted.drop keep = sorted :=
      List.take_append_drop keep sorted
    rw [← hsplit] at hpwLe hpwTs
    have hcrossLe := (List.pairwise_append.mp hpwLe).2.2
    have hcrossTs := (List.pairwise_append.mp hpwTs).2.2
    intro a ha b hb
    exact strLe_ne_lt (hcrossLe a ha b hb) (Ne.symm (hcrossTs a ha b hb))
  · set T := sorted.take keep with hT
    set D := sorted.drop keep with hD
    have hpwDirs : sorted.Pairwise (fun a b => a.dir ≠ b.dir) :=
      (hperm.pairwise_iff (fun h hh => h hh.symm)).mpr hdirs
    have hsplit : T ++ D = sorted := List.take_append_drop keep sorted
    rw [← hsplit] at hpwDirs
    have hcrossDirs := (List.pairwise_append.mp hpwDirs).2.2
    have hdropDirs := (List.pairwise_append.mp hpwDirs).2.1
    have hrem : pruneRemaining removeOk keep entries =
        entries.filter (fun e =>
          !(((D.filter (fun x => removeOk x.dir)).map (fun x => x.dir)).contains e.dir)) := by
      unfold pruneRemaining
      rw [hpr]
    have hTfilter : T.filter (fun e =>
        !(((D.filter (fun x => removeOk x.dir)).map (fun x => x.dir)).contains e.dir)) = T := by
      rw [List.filter_eq_self]
      intro e he
      have hnotin : e.dir ∉ (D.filter (fun x => removeOk x.dir)).map (fun x => x.dir) := by
        intro hmem
        obtain ⟨x, hx, hxd⟩ := List.mem_map.mp hmem
        exact hcrossDirs e he x (List.mem_filter.mp hx).1 hxd.symm
      cases hc : ((D.filter (fun x => removeOk x.dir)).map (fun x => x.dir)).contains e.dir with
      | false => rfl
      | true => exact absurd (List.elem_iff.mp hc) hnotin
    have hDfilter : D.filter (fun e =>
        !(((D.filter (fun x => removeOk x.dir)).map (fun x => x.dir)).contains e.dir)) =
        D.filter (fun e => !(removeOk e.dir)) := by
      apply List.filter_congr
      intro e he
      cases hok : removeOk e.dir with
      | true =>
        have hmem : e.dir ∈ (D.filter (fun x => removeOk x.dir)).map (fun x => x.dir) :=
          List.mem_map.mpr ⟨e, List.mem_filter.mpr ⟨he, hok⟩, rfl⟩
        have hcont : ((D.filter (fun x => removeOk x.dir)).map
            (fun x => x.dir)).contains e.dir = true := List.elem_iff.mpr hmem
        rw [hcont]
      | false =>
        have hnotin : e.dir ∉ (D.filter (fun x => removeOk x.dir)).map (fun x => x.dir) := by
          intro hmem
          obtain ⟨x, hx, hxd⟩ := List.mem_map.mp hmem
          have hxe : x = e :=
            dir_inj_of_pairwise hdropDirs x (List.mem_filter.mp hx).1 e he hxd
          rw [hxe] at hx
          have hx2 := (List.mem_filter.mp hx).2
          rw [hok] at hx2
          exact Bool.false_ne_true hx2
        cases hc : ((D.filter (fun x => removeOk x.dir)).map (fun x => x.dir)).contains e.dir with
        | false => rfl
        | true => exact absurd (List.elem_iff.mp hc) hnotin
    have hstep1 : (entries.filter (fun e =>
        !(((D.filter (fun x => removeOk x.dir)).map (fun x => x.dir)).contains e.dir))).Perm
        (sorted.filter (fun e =>
          !(((D.filter (fun x => removeOk x.dir)).map (fun x => x.dir)).contains e.dir))) :=
      (List.Perm.filter _ hperm).symm
    have hfin : sorted.filter (fun e =>
        !(((D.filter (fun x => removeOk x.dir)).map (fun x => x.dir)).contains e.dir)) =
        T ++ D.filter (fun e => !(removeOk e.dir)) := by
      rw [← hsplit, List.filter_append, hTfilter, hDfilter]
    rw [hrem]
    exact hstep1.trans (hfin ▸ List.Perm.refl _)

/-- Witness for C3: three entries of one distro, retention one, removal of
one old entry failing. -/
theorem prune_retains_latest_witness :
    ((∀ e ∈ [(⟨0, ⟨"alpine", "1", "x86_64", "h0", "f0", 7, "1000"⟩⟩ : CacheEntry),
              ⟨1, ⟨"alpine", "2", "x86_64", "h1", "f1", 11, "1001"⟩⟩,
              ⟨2, ⟨"alpine", "3", "x86_64", "h2", "f2", 13, "1002"⟩⟩],
        e.meta.distro = "alpine") ∧
      ([(⟨0, ⟨"alpine", "1", "x86_64", "h0", "f0", 7, "1000"⟩⟩ : CacheEntry),
        ⟨1, ⟨"alpine", "2", "x86_64", "h1", "f1", 11, "1001"⟩⟩,
        ⟨2, ⟨"alpine", "3", "x86_64", "h2", "f2", 13, "1002"⟩⟩].Pairwise
          (fun a b => a.meta.downloaded_at ≠ b.meta.downloaded_at)) ∧
      (1 < 3)) ∧
    ((prune (fun n => n == 0) 1
        [(⟨0, ⟨"alpine", "1", "x86_64", "h0", "f0", 7, "1000"⟩⟩ : CacheEntry),
         ⟨1, ⟨"alpine", "2", "x86_64", "h1", "f1", 11, "1001"⟩⟩,
         ⟨2, ⟨"alpine", "3", "x86_64", "h2", "f2", 13, "1002"⟩⟩]).1 = 7 ∧
     (prune (fun n => n == 0) 1
        [(⟨0, ⟨"alpine", "1", "x86_64", "h0", "f0", 7, "1000"⟩⟩ : CacheEntry),
         ⟨1, ⟨"alpine", "2", "x86_64", "h1", "f1", 11, "1001"⟩⟩,
         ⟨2, ⟨"alpine", "3", "x86_64", "h2", "f2", 13, "1002"⟩⟩]).2 = [0] ∧
     pruneRemaining (fun n => n == 0) 1
        [(⟨0, ⟨"alpine", "1", "x86_64", "h0", "f0", 7, "1000"⟩⟩ : CacheEntry),
         ⟨1, ⟨"alpine", "2", "x86_64", "h1", "f1", 11, "1001"⟩⟩,
         ⟨2, ⟨"alpine", "3", "x86_64", "h2", "f2", 13, "1002"⟩⟩] =
       [⟨1, ⟨"alpine", "2", "x86_64", "h1", "f1", 11, "1001"⟩⟩,
        ⟨2, ⟨"alpine", "3", "x86_64", "h2", "f2", 13, "1002"⟩⟩]) := by
  constructor
  · exact ⟨by decide, by decide, by decide⟩
  · have h := prune_retains_latest (fun n => n == 0) 1
      [(⟨0, ⟨"alpine", "1", "x86_64", "h0", "f0", 7, "1000"⟩⟩ : CacheEntry),
       ⟨1, ⟨"alpine", "2", "x86_64", "h1", "f1", 11, "1001"⟩⟩,
       ⟨2, ⟨"alpine", "3", "x86_64", "h2", "f2", 13, "1002"⟩⟩] "alpine"
      (by decide) (by decide) (by decide) (by decide)
    have hsort : [(⟨0, ⟨"alpine", "1", "x86_64", "h0", "f0", 7, "1000"⟩⟩ : CacheEntry),
        ⟨1, ⟨"alpine", "2", "x86_64", "h1", "f1", 11, "1001"⟩⟩,
        ⟨2, ⟨"alpine", "3", "x86_64", "h2", "f2", 13, "1002"⟩⟩].mergeSort newerFirst =
        [⟨2, ⟨"alpine", "3", "x86_64", "h2", "f2", 13, "1002"⟩⟩,
         ⟨1, ⟨"alpine", "2", "x86_64", "h1", "f1", 11, "1001"⟩⟩,
         ⟨0, ⟨"alpine", "1", "x86_64", "h0", "f0", 7, "1000"⟩⟩] := by
      simp [List.mergeSort, newerFirst, strLe, strLt, lexLt]
    refine ⟨h.1.trans (by rw [hsort]; decide), h.2.1.trans (by rw [hsort]; decide), ?_⟩
    simp only [pruneRemaining, h.2.1, hsort]
    decide

/-! ## Claim C4 -/

theorem strLe_of_lt {a b : String} (h : strLt a b = true) : strLe a b = true := by
  simp only [strLe, Bool.not_eq_true']
  exact lexLt_asymm h

theorem maxAcc_go (l : List String) : ∀ (m k : String),
    l.foldl maxAcc (some m) = some k →
    (k = m ∨ k ∈ l) ∧ strLe m k = true ∧ ∀ x ∈ l, strLe x k = true := by
  induction l with
  | nil =>
    intro m k h
    rw [List.foldl_nil] at h
    cases h
    exact ⟨Or.inl rfl, strLe_refl m, by simp⟩
  | cons y ys ih =>
    intro m k h
    rw [List.foldl_cons] at h
    cases hle : strLe m y with
    | true =>
      rw [show maxAcc (some m) y = some y by simp [maxAcc, hle]] at h
      obtain ⟨hmem, hyk, hall⟩ := ih y k h
      refine ⟨?_, strLe_trans hle hyk, ?_⟩
      · rcases hmem with hm | hm
        · exact Or.inr (hm ▸ List.mem_cons_self y ys)
        · exact Or.inr (List.mem_cons_of_mem y hm)
      · intro x hx
        rcases List.mem_cons.mp hx with hx | hx
        · exact hx ▸ hyk
        · exact hall x hx
    | false =>
      rw [show maxAcc (some m) y = some m by simp [maxAcc, hle]] at h
      obtain ⟨hmem, hmk, hall⟩ := ih m k h
      have hym : strLt y m = true := by
        cases hx : strLt y m with
        | true => rfl
        | false =>
          rw [show strLe m y = !strLt y m from rfl, hx] at hle
          exact absurd hle (by simp)
      refine ⟨?_, hmk, ?_⟩
      · rcases hmem with hm | hm
        · exact Or.inl hm
        · exact Or.inr (List.mem_cons_of_mem y hm)
      · intro x hx
        rcases List.mem_cons.mp hx with hx | hx
        · exact hx ▸ strLe_trans (strLe_of_lt hym) hmk
        · exact hall x hx

theorem maxKey?_spec (l : List String) (k : String) (h : maxKey? l = some k) :
    k ∈ l ∧ ∀ x ∈ l, strLe x k = true := by
  cases l with
  | nil => cases h
  | cons y ys =>
    unfold maxKey? at h
    rw [List.foldl_cons, show maxAcc none y = some y from rfl] at h
    obtain ⟨hmem, hyk, hall⟩ := maxAcc_go ys y k h
    refine ⟨?_, ?_⟩
    · rcases hmem with hm | hm
      · exact hm ▸ List.mem_cons_self y ys
      · exact List.mem_cons_of_mem y hm
    · intro x hx
      rcases List.mem_cons.mp hx with hx | hx
      · exact hx ▸ hyk
      · exact hall x hx

/-- The two-build mock index of the end-to-end scenario (two builds of
`alpine:3.21:amd64:default`, timestamps `"20260217_13:00"` with hash
`aabbccdd` and `"20260218_13:00"` with hash `eeff0011`). -/
def mockIndex : SimplestreamsIndex :=
  ⟨[("alpine:3.21:amd64:default",
     ⟨"amd64", "Alpine", "3.21", "3.21", "default",
      [("20260217_13:00",
        ⟨[("root.tar.xz",
           ⟨"root.tar.xz", "aabbccdd", 3145728,
            "images/alpine/3.21/amd64/default/20260217_13:00/rootfs.tar.xz"⟩),
          ("lxd.tar.xz",
           ⟨"lxd.tar.xz", "11223344", 440,
            "images/alpine/3.21/amd64/default/20260217_13:00/lxd.tar.xz"⟩)]⟩),
       ("20260218_13:00",
        ⟨[("root.tar.xz",
           ⟨"root.tar.xz", "eeff0011", 3200000,
            "images/alpine/3.21/amd64/default/20260218_13:00/rootfs.tar.xz"⟩)]⟩)]⟩)]⟩

/-- Claim C4: resolution selects the build whose timestamp key is the
lexicographically maximal string among the product's version keys (the key
selected by `maxKey?` is a key and dominates every key), and on the
two-build mock index resolving alpine 3.21 amd64 returns the URL and hash
of the `eeff0011` build. -/
theorem resolve_selects_latest_build :
    (∀ (product : Product) (k : String),
      maxKey? (product.versions.map (fun pr => pr.1)) = some k →
        k ∈ product.versions.map (fun pr => pr.1) ∧
        ∀ x ∈ product.versions.map (fun pr => pr.1), strLe x k = true) ∧
    resolve_from_index Mirror.Official mockIndex Distro.Alpine "3.21" Arch.X86_64 =
      Except.ok
        ⟨"https://images.linuxcontainers.org/images/alpine/3.21/amd64/default/20260218_13:00/rootfs.tar.xz",
         "eeff0011", 3200000, "rootfs.tar.xz"⟩ :=
  ⟨fun _ k h => maxKey?_spec _ k h, by decide⟩

/-- Witness for C4: the maximal-key selection at the two concrete
timestamps. -/
theorem resolve_selects_latest_build_witness :
    maxKey? ((⟨"amd64", "A", "3.21", "", "default",
        [("20260217_13:00", ⟨[]⟩), ("20260218_13:00", ⟨[]⟩)]⟩ : Product).versions.map
          (fun pr => pr.1)) = some "20260218_13:00" ∧
    ("20260218_13:00" ∈ ["20260217_13:00", "20260218_13:00"] ∧
      ∀ x ∈ ["20260217_13:00", "20260218_13:00"], strLe x "20260218_13:00" = true) :=
  ⟨by decide,
   resolve_selects_latest_build.1
     ⟨"amd64", "A", "3.21", "", "default",
      [("20260217_13:00", ⟨[]⟩), ("20260218_13:00", ⟨[]⟩)]⟩
     "20260218_13:00" (by decide)⟩

/-! ## Claim C5 -/

/-- Claim C5: the product key is tried under the `"default"` variant first
and the `"cloud"` variant second; the first key present in the index is
resolved; when neither is present the call fails with `ProductNotFound` —
a constructor distinct from `RootfsNotFound`. -/
theorem resolve_variant_priority
    (mirror : Mirror) (index : SimplestreamsIndex) (distro : Distro) (version : Version)
    (arch : Arch) :
    (∀ p, alookup (product_key distro version arch "default") index.products = some p →
      resolve_from_index mirror index distro version arch =
        resolveProduct mirror (product_key distro version arch "default") p) ∧
    (alookup (product_key distro version arch "default") index.products = none →
      ∀ p, alookup (product_key distro version arch "cloud") index.products = some p →
      resolve_from_index mirror index distro version arch =
        resolveProduct mirror (product_key distro version arch "cloud") p) ∧
    (alookup (product_key distro version arch "default") index.products = none →
      alookup (product_key distro version arch "cloud") index.products = none →
      resolve_from_index mirror index distro version arch =
        Except.error (Error.ProductNotFound distro.as_str version arch.lxc_name)) ∧
    (∀ d v a k, Error.ProductNotFound d v a ≠ Error.RootfsNotFound k) := by
  refine ⟨?_, ?_, ?_, ?_⟩
  · intro p h
    simp [resolve_from_index, findVariant, h]
  · intro h p h2
    simp [resolve_from_index, findVariant, h, h2]
  · intro h h2
    simp [resolve_from_index, findVariant, h, h2]
  · intro d v a k h
    cases h

/-- Witness for C5: the empty index resolves to `ProductNotFound`. -/
theorem resolve_variant_priority_witness :
    resolve_from_index Mirror.Official ⟨[]⟩ Distro.Alpine "3.21" Arch.X86_64 =
      Except.error (Error.ProductNotFound "alpine" "3.21" "amd64") :=
  (resolve_variant_priority Mirror.Official ⟨[]⟩ Distro.Alpine "3.21" Arch.X86_64).2.2.1
    (by decide) (by decide)

/-! ## Claim C10 -/

/-- Claim C10: a product key found in the index whose product has an empty
versions map fails with `RootfsNotFound` carrying that matched product key
— not with `ProductNotFound`. -/
theorem resolve_empty_versions_rootfs_not_found
    (mirror : Mirror) (index : SimplestreamsIndex) (distro : Distro) (version : Version)
    (arch : Arch) (p : Product) (k : String)
    (hfind : findVariant index.products (product_key distro version arch)
      ["default", "cloud"] = some (p, k))
    (hempty : p.versions = []) :
    resolve_from_index mirror index distro version arch =
      Except.error (Error.RootfsNotFound k) := by
  simp only [resolve_from_index, hfind, resolveProduct, hempty]
  rfl

/-- Witness for C10: an index holding one product with no builds. -/
theorem resolve_empty_versions_rootfs_not_found_witness :
    resolve_from_index Mirror.Official
      ⟨[("alpine:3.21:amd64:default", ⟨"amd64", "Alpine", "3.21", "3.21", "default", []⟩)]⟩
      Distro.Alpine "3.21" Arch.X86_64 =
      Except.error (Error.RootfsNotFound "alpine:3.21:amd64:default") :=
  resolve_empty_versions_rootfs_not_found Mirror.Official
    ⟨[("alpine:3.21:amd64:default", ⟨"amd64", "Alpine", "3.21", "3.21", "default", []⟩)]⟩
    Distro.Alpine "3.21" Arch.X86_64
    ⟨"amd64", "Alpine", "3.21", "3.21", "default", []⟩ "alpine:3.21:amd64:default"
    (by decide) rfl

/-! ## Claim C6 -/

/-- The claim's description of one GNU-style checksum line: split at the
first whitespace character into hash and remainder; the filename field is
the remainder with leading whitespace and the leading binary-mode marker
prefix stripped; the line yields its lowercased hash exactly when the
filename field equals the target filename. -/
def gnuLineHash (filename : String) (line : String) : Option String :=
  match splitOnceP isWsp line.data with
  | none => none
  | some (hash, r) =>
    if (r.dropWhile isWsp).dropWhile (fun c => c = '*') = filename.data
    then some (String.mk (lowerAscii hash))
    else none

theorem parseGnuLines_eq (filename : String) (lines : List String) :
    parseGnuLines filename lines =
      match lines.findSome? (gnuLineHash filename) with
      | some h => Except.ok h
      | none => Except.error Error.ChecksumParse := by
  induction lines with
  | nil => rfl
  | cons line rest ih =>
    rw [List.findSome?_cons]
    cases hs : splitOnceP isWsp line.data with
    | none =>
      rw [show gnuLineHash filename line = none by simp [gnuLineHash, hs]]
      simp only [parseGnuLines, hs]
      exact ih
    | some pr =>
      obtain ⟨hash, r⟩ := pr
      by_cases hf : (r.dropWhile isWsp).dropWhile (fun c => c = '*') = filename.data
      · rw [show gnuLineHash filename line = some (String.mk (lowerAscii hash)) by
          simp [gnuLineHash, hs, hf]]
        simp only [parseGnuLines, hs, hf, if_true]
      · rw [show gnuLineHash filename line = none by simp [gnuLineHash, hs, hf]]
        simp only [parseGnuLines, hs, hf, if_false]
        exact ih

/-- Claim C6: the GNU-style multi-file parser returns the lowercased hash
of the first line whose filename field equals the target exactly; when no
line matches — in particular when the target is merely a strict suffix of
a line's filename — it fails with `ChecksumParse`; and `parse_checksum`
dispatches to this grammar for a `GnuCoreutils` specification. -/
theorem parse_checksum_gnu_exact :
    (∀ (content filename h : String),
      (rustLines content).findSome? (gnuLineHash filename) = some h →
      parseGnuCoreutils content filename = Except.ok h) ∧
    (∀ (content filename : String),
      (rustLines content).findSome? (gnuLineHash filename) = none →
      parseGnuCoreutils content filename = Except.error Error.ChecksumParse) ∧
    parseGnuCoreutils
      "aaa111 *noble-server-cloudimg-arm64-root.tar.xz\nbbb222 *noble-server-cloudimg-amd64-root.tar.xz\n"
      "root.tar.xz" = Except.error Error.ChecksumParse ∧
    (∀ (p : TemplateProvider) (content filename : String),
      p.spec.checksum_format = ChecksumFormat.GnuCoreutils →
      p.parse_checksum content filename = parseGnuCoreutils content filename) := by
  refine ⟨?_, ?_, by decide, ?_⟩
  · intro content filename h hfind
    unfold parseGnuCoreutils
    rw [parseGnuLines_eq, hfind]
  · intro content filename hfind
    unfold parseGnuCoreutils
    rw [parseGnuLines_eq, hfind]
  · intro p content filename hfmt
    unfold TemplateProvider.parse_checksum TemplateProvider.parse_checksum_impl
    rw [hfmt]

/-- Witness for C6: an exact filename match returns the first matching
line's lowercased hash. -/
theorem parse_checksum_gnu_exact_witness :
    (rustLines "AAA111 *root.tar.xz\nbbb222 *other.tar.xz\n").findSome?
      (gnuLineHash "root.tar.xz") = some "aaa111" ∧
    parseGnuCoreutils "AAA111 *root.tar.xz\nbbb222 *other.tar.xz\n" "root.tar.xz" =
      Except.ok "aaa111" :=
  ⟨by decide,
   parse_checksum_gnu_exact.1 "AAA111 *root.tar.xz\nbbb222 *other.tar.xz\n" "root.tar.xz"
     "aaa111" (by decide)⟩

/-! ## Claim C7 -/

theorem splitOnceP_none (p : Char → Bool) (cs : List Char) (h : ∀ c ∈ cs, p c = false) :
    splitOnceP p cs = none := by
  induction cs with
  | nil => rfl
  | cons c cs ih =>
    have hc := h c (List.mem_cons_self c cs)
    simp only [splitOnceP, hc, Bool.false_eq_true, if_false]
    rw [ih (fun x hx => h x (List.mem_cons_of_mem c hx))]

theorem splitOnceP_append (p : Char → Bool) (a : List Char) (d : Char) (r : List Char)
    (ha : ∀ c ∈ a, p c = false) (hd : p d = true) :
    splitOnceP p (a ++ d :: r) = some (a, r) := by
  induction a with
  | nil => simp [splitOnceP, hd]
  | cons c cs ih =>
    have hc := ha c (List.mem_cons_self c cs)
    have ih2 := ih (fun x hx => ha x (List.mem_cons_of_mem c hx))
    simp only [List.cons_append, splitOnceP, hc, Bool.false_eq_true, if_false,
      List.append_eq, ih2]

/-- Claim C7: under the major-minor transform a version with a third
dot-separated segment is truncated to its first two segments while a
version lacking a third segment is returned unchanged (`"3.21.3"` yields
`"3.21"`, `"3.21"` is unchanged); and a version not present in the
codename table resolves to the specification's default codename. -/
theorem major_minor_and_codename :
    (∀ (prov : TemplateProvider) (v : Version) (a b rest : List Char),
      prov.spec.version_transform = VersionTransform.MajorMinor →
      v.data = a ++ '.' :: (b ++ '.' :: rest) →
      (∀ c ∈ a, c ≠ '.') → (∀ c ∈ b, c ≠ '.') →
      prov.resolve_major_minor v = String.mk (a ++ '.' :: b)) ∧
    (∀ (prov : TemplateProvider) (v : Version) (a b : List Char),
      prov.spec.version_transform = VersionTransform.MajorMinor →
      v.data = a ++ '.' :: b →
      (∀ c ∈ a, c ≠ '.') → (∀ c ∈ b, c ≠ '.') →
      prov.resolve_major_minor v = v) ∧
    (∀ (prov : TemplateProvider) (v : Version),
      prov.spec.version_transform = VersionTransform.MajorMinor →
      (∀ c ∈ v.data, c ≠ '.') →
      prov.resolve_major_minor v = v) ∧
    ((⟨ALPINE⟩ : TemplateProvider).resolve_major_minor "3.21.3" = "3.21") ∧
    ((⟨ALPINE⟩ : TemplateProvider).resolve_major_minor "3.21" = "3.21") ∧
    (∀ (prov : TemplateProvider) (v : Version),
      (∀ tb, prov.spec.codename_table = some tb → ∀ pr ∈ tb, pr.1 ≠ v) →
      prov.resolve_codename v = prov.spec.default_codename) := by
  refine ⟨?_, ?_, ?_, by decide, by decide, ?_⟩
  · intro prov v a b rest ht hv ha hb
    simp only [TemplateProvider.resolve_major_minor, ht, hv,
      splitOnceP_append _ a '.' _ (fun c hc => decide_eq_false (ha c hc)) (by simp),
      splitOnceP_append _ b '.' rest (fun c hc => decide_eq_false (hb c hc)) (by simp)]
  · intro prov v a b ht hv ha hb
    simp only [TemplateProvider.resolve_major_minor, ht, hv,
      splitOnceP_append _ a '.' _ (fun c hc => decide_eq_false (ha c hc)) (by simp),
      splitOnceP_none _ b (fun c hc => decide_eq_false (hb c hc))]
  · intro prov v ht hv
    simp only [TemplateProvider.resolve_major_minor, ht,
      splitOnceP_none _ v.data (fun c hc => decide_eq_false (hv c hc))]
  · intro prov v htb
    unfold TemplateProvider.resolve_codename
    cases hctb : prov.spec.codename_table with
    | none => rfl
    | some tb =>
      have hfind : tb.find? (fun pr => decide (pr.1 = v)) = none :=
        List.find?_eq_none.mpr (fun x hx => by simp [htb tb hctb x hx])
      simp only [hfind]

/-- Witness for C7: the concrete major-minor truncation of `"3.21.3"` and
the default-codename fallback for an unmapped Ubuntu version. -/
theorem major_minor_and_codename_witness :
    ("3.21.3" : String).data = ['3'] ++ '.' :: (['2', '1'] ++ '.' :: ['3']) ∧
    (⟨ALPINE⟩ : TemplateProvider).resolve_major_minor "3.21.3" =
      String.mk (['3'] ++ '.' :: ['2', '1']) ∧
    (⟨UBUNTU⟩ : TemplateProvider).resolve_codename "9.9" = "noble" :=
  ⟨by decide,
   major_minor_and_codename.1 ⟨ALPINE⟩ "3.21.3" ['3'] ['2', '1'] ['3'] rfl (by decide)
     (by decide) (by decide),
   major_minor_and_codename.2.2.2.2.2 ⟨UBUNTU⟩ "9.9"
     (by intro tb htb; cases htb; decide)⟩

/-! ## Claim C8 -/

/-- Claim C8: checksum-file verification dispatches on the hash algorithm
the provider's specification declares — under SHA-256 the always-computed
primary digest field is compared, under SHA-512 the secondary digest is
computed from the data and compared — verification succeeds iff the
selected digest equals the expected hash, and any mismatch is a
`ChecksumMismatch` carrying both the expected and the actual hash. -/
theorem verify_hash_dispatch (prov : TemplateProvider) (expected : String)
    (r : DownloadResult) :
    (verify_hash expected r prov.hash_algorithm = Except.ok () ↔
      actual_hash r prov.hash_algorithm = expected) ∧
    (actual_hash r prov.hash_algorithm ≠ expected →
      verify_hash expected r prov.hash_algorithm =
        Except.error (Error.ChecksumMismatch expected (actual_hash r prov.hash_algorithm))) ∧
    actual_hash r HashAlgorithm.Sha256 = r.sha256 ∧
    actual_hash r HashAlgorithm.Sha512 = sha512hex r.data := by
  refine ⟨?_, ?_, rfl, rfl⟩
  · unfold verify_hash
    by_cases h : actual_hash r prov.hash_algorithm = expected
    · simp [h]
    · simp [h]
  · intro h
    simp [verify_hash, h]

/-- Witness for C8: a mismatching SHA-256 digest under the Alpine
specification is reported with both hashes. -/
theorem verify_hash_dispatch_witness :
    verify_hash "aa" ⟨[], "bb", "f"⟩ (⟨ALPINE⟩ : TemplateProvider).hash_algorithm =
      Except.error (Error.ChecksumMismatch "aa" "bb") :=
  (verify_hash_dispatch ⟨ALPINE⟩ "aa" ⟨[], "bb", "f"⟩).2.1 (by decide)

/-! ## Claim C9 -/

theorem revPrefixEq_cons {p : Char} {ps l : List Char}
    (h : revPrefixEq (p :: ps) l = true) :
    ∃ cs, l = p :: cs ∧ revPrefixEq ps cs = true := by
  cases l with
  | nil => cases h
  | cons c cs =>
    by_cases hc : c = p
    · subst hc
      refine ⟨cs, rfl, ?_⟩
      simpa [revPrefixEq] using h
    · simp [revPrefixEq, hc] at h

/-- The gzip-family and xz-family suffixes are mutually exclusive: every
suffix of the first family pins the second-to-last character to `'g'`,
every suffix of the second family pins it to `'x'`. -/
theorem gz_xz_exclusive (name : String)
    (h1 : (strEndsWith name ".tar.gz" || strEndsWith name ".tgz") = true)
    (h2 : (strEndsWith name ".tar.xz" || strEndsWith name ".txz") = true) : False := by
  have hg : ∃ cs, name.data.reverse = 'z' :: 'g' :: cs := by
    rcases Bool.or_eq_true_iff.mp h1 with hx | hx
    · obtain ⟨c1, he1, hr1⟩ := revPrefixEq_cons (by exact hx)
      obtain ⟨c2, he2, _⟩ := revPrefixEq_cons hr1
      exact ⟨c2, by rw [he1, he2]⟩
    · obtain ⟨c1, he1, hr1⟩ := revPrefixEq_cons (by exact hx)
      obtain ⟨c2, he2, _⟩ := revPrefixEq_cons hr1
      exact ⟨c2, by rw [he1, he2]⟩
  have hx : ∃ cs, name.data.reverse = 'z' :: 'x' :: cs := by
    rcases Bool.or_eq_true_iff.mp h2 with hx | hx
    · obtain ⟨c1, he1, hr1⟩ := revPrefixEq_cons (by exact hx)
      obtain ⟨c2, he2, _⟩ := revPrefixEq_cons hr1
      exact ⟨c2, by rw [he1, he2]⟩
    · obtain ⟨c1, he1, hr1⟩ := revPrefixEq_cons (by exact hx)
      obtain ⟨c2, he2, _⟩ := revPrefixEq_cons hr1
      exact ⟨c2, by rw [he1, he2]⟩
  obtain ⟨cs1, hc1⟩ := hg
  obtain ⟨cs2, hc2⟩ := hx
  rw [hc1] at hc2
  simp at hc2

/-- Claim C9: format detection recognizes exactly the two compressed-tar
families (`.tar.gz`/`.tgz` → gzip, `.tar.xz`/`.txz` → xz), any other
extension is an `UnsupportedFormat` failure, and `extract_to` returns that
failure before any I/O: the target directory is left exactly as it was
(in particular uncreated). -/
theorem extract_format_detection (name : String) :
    (ExtractFormat.detect name = Except.ok ExtractFormat.TarGz ↔
      (strEndsWith name ".tar.gz" || strEndsWith name ".tgz") = true) ∧
    (ExtractFormat.detect name = Except.ok ExtractFormat.TarXz ↔
      (strEndsWith name ".tar.xz" || strEndsWith name ".txz") = true) ∧
    ((strEndsWith name ".tar.gz" || strEndsWith name ".tgz") = false →
      (strEndsWith name ".tar.xz" || strEndsWith name ".txz") = false →
      ExtractFormat.detect name = Except.error (RootfsError.UnsupportedFormat name)) ∧
    (∀ (unpack : ExtractFormat → TargetDir → Except RootfsError TargetDir)
        (c : CachedRootfs) (t : TargetDir) (e : RootfsError),
      ExtractFormat.detect (lastSegment c.metadata.filename) = Except.error e →
      extract_to unpack c t = (Except.error e, t)) := by
  refine ⟨⟨?_, ?_⟩, ⟨?_, ?_⟩, ?_, ?_⟩
  · intro h
    cases hg : (strEndsWith name ".tar.gz" || strEndsWith name ".tgz") with
    | true => rfl
    | false =>
      exfalso
      cases hx : (strEndsWith name ".tar.xz" || strEndsWith name ".txz") with
      | true => simp [ExtractFormat.detect, hg, hx] at h
      | false => simp [ExtractFormat.detect, hg, hx] at h
  · intro h
    simp [ExtractFormat.detect, h]
  · intro h
    cases hx : (strEndsWith name ".tar.xz" || strEndsWith name ".txz") with
    | true => rfl
    | false =>
      exfalso
      cases hg : (strEndsWith name ".tar.gz" || strEndsWith name ".tgz") with
      | true => simp [ExtractFormat.detect, hg, hx] at h
      | false => simp [ExtractFormat.detect, hg, hx] at h
  · intro h
    have hg : (strEndsWith name ".tar.gz" || strEndsWith name ".tgz") = false := by
      cases hgx : (strEndsWith name ".tar.gz" || strEndsWith name ".tgz") with
      | false => rfl
      | true => exact (gz_xz_exclusive name hgx h).elim
    simp [ExtractFormat.detect, hg, h]
  · intro hg hx
    simp [ExtractFormat.detect, hg, hx]
  · intro unpack c t e h
    simp [extract_to, h]

/-- Witness for C9: a `.zip` archive is rejected before any I/O and the
target directory value is untouched. -/
theorem extract_format_detection_witness :
    ExtractFormat.detect "rootfs.zip" =
      Except.error (RootfsError.UnsupportedFormat "rootfs.zip") ∧
    extract_to (fun _ t => Except.ok t)
      ⟨⟨"alpine", "3.21", "aarch64", "h", "rootfs.zip", 1, "0"⟩⟩ ⟨false, []⟩ =
      (Except.error (RootfsError.UnsupportedFormat "rootfs.zip"), ⟨false, []⟩) :=
  ⟨(extract_format_detection "rootfs.zip").2.2.1 (by decide) (by decide),
   (extract_format_detection "rootfs.zip").2.2.2 (fun _ t => Except.ok t)
     ⟨⟨"alpine", "3.21", "aarch64", "h", "rootfs.zip", 1, "0"⟩⟩ ⟨false, []⟩
     (RootfsError.UnsupportedFormat "rootfs.zip") (by decide)⟩
